import Mathlib

/-!
# Verification of the chisel slicing engine against its specification

This file shallowly embeds the parts of the chisel code base that the
checked claims are about:

* the release/slice data model of `internal/setup` (`PathInfo`,
  `SameContent`, `Slice`, `Package`, `Release`, `Selection`);
* the conflict machinery: `Selection.SelectPackage` /
  `Selection.PackageProvidesPath`, `Release.validate` with its
  `conflictGraph.walk`, `conflictPriority` and
  `Conflict.checkSamePkgConflict` of the variant setup package;
* the slice/package name regular expressions and `ParseSliceKey`;
* `Report.Add` / `Report.AddMutated` of `internal/slicer`;
* the path rows built by `generateDB` / `generateManifest` of
  `cmd/chisel/db.go`, and the jsonwall database layout pinned down by the
  `dbTests` fixtures.

Go maps are embedded as association lists; the list order stands for the
(unspecified) iteration order of the Go map, and theorems quantify over it
where it matters.  Machine integers that never overflow in the modelled
code (`int` counters, `uint` modes, sizes) are embedded as `Nat`.
-/

namespace Chisel

/-! ## Association lists standing for Go maps -/
/-- `m[k]` of a Go map: the value stored at the first matching key. -/
def lookupA {α : Type} (m : List (String × α)) (k : String) : Option α :=
  match m with
  | [] => none
  | (k', v) :: rest => if k' = k then some v else lookupA rest k

/-- `m[k] = v` of a Go map: replace the binding if the key is present,
otherwise append a new one. -/
def insertA {α : Type} (m : List (String × α)) (k : String) (v : α) :
    List (String × α) :=
  match m with
  | [] => [(k, v)]
  | (k', v') :: rest =>
    if k' = k then (k', v) :: rest else (k', v') :: insertA rest k v

/-- Key membership of a Go map. -/
def memA {α : Type} (m : List (String × α)) (k : String) : Bool :=
  (lookupA m k).isSome

/-! ## Go's string order and `sort.Strings`

Go compares strings byte-wise; on UTF-8 data this is the code-point
order, embedded here as an executable comparison on the character
lists. -/
/-- Byte-wise (code-point-wise) strict order on character lists. -/
def listLt : List Char → List Char → Bool
  | [], [] => false
  | [], _ :: _ => true
  | _ :: _, [] => false
  | a :: as, b :: bs =>
    if a.toNat < b.toNat then true
    else if b.toNat < a.toNat then false
    else listLt as bs

/-- Go's `a < b` on strings. -/
def strLtB (a b : String) : Bool := listLt a.data b.data

/-- Go's `a <= b` on strings. -/
def strLeB (a b : String) : Bool := !(strLtB b a)

/-- The embedding of `sort.Strings` and of the jsonwall row order. -/
def sortStrs (l : List String) : List String :=
  List.insertionSort (fun a b => strLeB a b = true) l

/-! ## The release data model (`internal/setup/setup.go`)

`PathKind`, `PathUntil`, `GenerateKind` and `PathInfo` are shared by every
variant of the setup package in the corpus; the two coexisting definitions
of `PathInfo.SameContent` (one compares five fields, the fork variant also
compares `Prefer`) are both embedded. -/
inductive PathKind where
  | dirPath
  | copyPath
  | globPath
  | textPath
  | symlinkPath
  | generatePath
  deriving DecidableEq, Repr

inductive PathUntil where
  | untilNone
  | untilMutate
  deriving DecidableEq, Repr

inductive GenerateKind where
  | generateNone
  | generateManifest
  | generateOther (tag : String)
  deriving DecidableEq, Repr

structure PathInfo where
  kind : PathKind
  info : String
  mode : Nat
  mutable : Bool
  untilK : PathUntil
  arch : List String
  generate : GenerateKind
  prefer : String
  deriving DecidableEq, Repr

/-- A `PathInfo` with every attribute at its zero value (`copy` is the
kind of a bare path key). -/
def PathInfo.zero : PathInfo :=
  { kind := PathKind.copyPath, info := "", mode := 0, mutable := false,
    untilK := PathUntil.untilNone, arch := [], generate := GenerateKind.generateNone,
    prefer := "" }

/-- `PathInfo.SameContent` as defined in `internal/setup/setup.go` of the
main line (and of `part_007`): it compares kind, info, mode, mutable and
generate. -/
def PathInfo.SameContent (pi other : PathInfo) : Bool :=
  pi.kind = other.kind &&
  pi.info = other.info &&
  pi.mode = other.mode &&
  pi.mutable = other.mutable &&
  pi.generate = other.generate

/-- `PathInfo.SameContent` of the fork variant (`part_008`, second copy):
it additionally compares the `Prefer` field. -/
def PathInfo.SameContentPreferVariant (pi other : PathInfo) : Bool :=
  pi.kind = other.kind &&
  pi.info = other.info &&
  pi.mode = other.mode &&
  pi.mutable = other.mutable &&
  pi.generate = other.generate &&
  pi.prefer = other.prefer

structure SliceKey where
  package : String
  slice : String
  deriving DecidableEq, Repr

def SliceKey.str (s : SliceKey) : String := s.package ++ "_" ++ s.slice

/-- `setup.Slice`; `Contents` is a Go map embedded as an association list
whose order stands for the map's iteration order. -/
structure Slice where
  package : String
  name : String
  essential : List SliceKey
  contents : List (String × PathInfo)
  mutateScript : String
  deriving DecidableEq, Repr

def Slice.str (s : Slice) : String := s.package ++ "_" ++ s.name

/-- `setup.Archive`; the OpenPGP public keys are opaque external data and
never read by the modelled operations, so they are not carried. -/
structure Archive where
  name : String
  version : String
  suites : List String
  components : List String
  priority : Int
  pro : String
  deriving DecidableEq, Repr

structure Package where
  name : String
  path : String
  archive : String
  slices : List (String × Slice)
  deriving DecidableEq, Repr

/-- `setup.Release`. `conflictRanks` (called `pathPriorities` in one
variant) maps a conflicting path to the rank of each contending package;
it is empty until `Release.validate` fills it in. -/
structure Release where
  path : String
  packages : List (String × Package)
  archives : List (String × Archive)
  conflictRanks : List (String × List (String × Nat))
  deriving DecidableEq, Repr

structure Selection where
  release : Release
  slices : List Slice
  deriving Repr

/-- `Selection.SelectPackage` (`part_007`): true if `pkg` should be the one
to provide `path` among all other selected packages. -/
def Selection.SelectPackage (s : Selection) (path pkg : String) : Bool :=
  match lookupA s.release.conflictRanks path with
  | none => true
  | some ranks =>
    match lookupA ranks pkg with
    | none => false
    | some pkgRank =>
      s.slices.all fun slice =>
        match lookupA ranks slice.package with
        | some rank => !(decide (rank > pkgRank))
        | none => true

/-- `Selection.PackageProvidesPath` (`part_008`): the same predicate with
the argument order of the other variant. -/
def Selection.PackageProvidesPath (s : Selection) (pkg path : String) : Bool :=
  s.SelectPackage path pkg

/-! ## Name patterns and `ParseSliceKey` (`internal/setup/setup.go`)

The code anchors three regular expressions:

* `fnameExp = ^([a-z0-9](?:-?[.a-z0-9+]){1,})\.yaml$`
* `snameExp = ^([a-z](?:-?[a-z0-9]){2,})$`
* `knameExp = ^([a-z0-9](?:-?[.a-z0-9+]){1,})_([a-z](?:-?[a-z0-9]){2,})$`

Because `-` belongs to neither character class, a repetition `(?:-?C){n,}`
is parsed deterministically: a `-` must be followed by a class character,
and every other character must itself be in the class.  `countReps`
consumes the whole input that way and returns the number of repetitions,
so `countReps cls l = some n` with `min ≤ n` is exactly the anchored
regex `(?:-?C){min,}` accepting `l`. -/
def isLowerAlpha (c : Char) : Bool := 'a' ≤ c && c ≤ 'z'

def isDigitCh (c : Char) : Bool := '0' ≤ c && c ≤ '9'

def isLowerAlnum (c : Char) : Bool := isLowerAlpha c || isDigitCh c

/-- The character class `[.a-z0-9+]` of `fnameExp`/`knameExp`. -/
def isPkgClass (c : Char) : Bool :=
  c = '.' || isLowerAlpha c || isDigitCh c || c = '+'

/-- The character class `[a-z0-9]` of `snameExp`. -/
def isSnameClass (c : Char) : Bool := isLowerAlnum c

/-- Number of repetitions of `(?:-?C)` consuming the whole input, `none`
if the input cannot be consumed. -/
def countReps (cls : Char → Bool) : List Char → Option Nat
  | [] => some 0
  | c :: rest =>
    if c = '-' then
      match rest with
      | [] => none
      | d :: rest' =>
        if cls d then (countReps cls rest').map (· + 1) else none
    else if cls c then (countReps cls rest).map (· + 1) else none

/-- The package-name pattern `[a-z0-9](?:-?[.a-z0-9+]){1,}` common to
`fnameExp` and `knameExp`. -/
def pkgNameChars (l : List Char) : Bool :=
  match l with
  | [] => false
  | c :: rest =>
    isLowerAlnum c &&
      (match countReps isPkgClass rest with
       | some n => decide (1 ≤ n)
       | none => false)

/-- The slice-name pattern `[a-z](?:-?[a-z0-9]){2,}` of `snameExp` and
`knameExp`. -/
def snameChars (l : List Char) : Bool :=
  match l with
  | [] => false
  | c :: rest =>
    isLowerAlpha c &&
      (match countReps isSnameClass rest with
       | some n => decide (2 ≤ n)
       | none => false)

/-- Split a character list at its first underscore.  `knameExp`'s two
groups cannot contain `_`, so its match is exactly: split at the first
underscore and match both parts. -/
def splitUnder : List Char → Option (List Char × List Char)
  | [] => none
  | c :: rest =>
    if c = '_' then some ([], rest)
    else
      match splitUnder rest with
      | some (a, b) => some (c :: a, b)
      | none => none

/-- `setup.ParseSliceKey`: parse a `pkg_slice` reference with `knameExp`. -/
def ParseSliceKey (s : String) : Except String SliceKey :=
  match splitUnder s.data with
  | some (p, n) =>
    if pkgNameChars p && snameChars n then
      Except.ok ⟨String.mk p, String.mk n⟩
    else Except.error ("invalid slice reference: " ++ s)
  | none => Except.error ("invalid slice reference: " ++ s)

/-- `fnameExp` applied to a file base name: a stem matching the
package-name pattern followed by the literal suffix `.yaml`. -/
def fnameMatch (s : String) : Bool :=
  decide (5 ≤ s.data.length) &&
    decide (s.data.drop (s.data.length - 5) = String.data (".yaml")) &&
    pkgNameChars (s.data.take (s.data.length - 5))

/-- Modelled from the spec (for comparison with `fnameExp`): the spec's
package-name pattern `[a-z0-9]([-.a-z0-9+])+`. -/
def specPkgName (l : List Char) : Bool :=
  match l with
  | [] => false
  | c :: rest =>
    isLowerAlnum c && decide (rest ≠ []) &&
      rest.all fun d => d = '-' || isPkgClass d

/-- Modelled from the spec (for comparison with `snameExp`): the spec's
slice-name pattern `[a-z]([-a-z0-9])+`. -/
def specSliceName (l : List Char) : Bool :=
  match l with
  | [] => false
  | c :: rest =>
    isLowerAlpha c && decide (rest ≠ []) &&
      rest.all fun d => d = '-' || isSnameClass d

/-! ## The conflict graph and `Release.validate` (`part_007`)

The embedding follows the `part_007` copy of the setup package.  Errors
carry the message text of the Go `fmt.Errorf` calls, with `%q` quoting
elided. -/
/-- `s.Contents[path]` of Go: the zero `PathInfo` when the key is absent. -/
def contentsGet (s : Slice) (path : String) : PathInfo :=
  (lookupA s.contents path).getD PathInfo.zero

/-- Merge the bindings of `adds` into `m`, as Go's
`for k, v := range adds { m[k] = v }`. -/
def mergeA {α : Type} (m adds : List (String × α)) : List (String × α) :=
  adds.foldl (fun acc kv => insertA acc kv.1 kv.2) m

/-- The deterministic conflict-message ordering of `reportConflict`. -/
def reportConflict (old new : Slice) (path : String) : String :=
  let p :=
    if strLtB new.package old.package = true ∨
        (old.package = new.package ∧ strLtB new.name old.name = true) then
      (new, old)
    else (old, new)
  "slices " ++ p.1.str ++ " and " ++ p.2.str ++ " conflict on " ++ path

structure ConflictGraph where
  path : String
  head : Slice
  visited : List (String × Slice)
  deriving Repr

/-- `conflictGraph.isLinear`. -/
def ConflictGraph.isLinear (g : ConflictGraph) : Bool :=
  (contentsGet g.head g.path).prefer ≠ ""

/-- `conflictGraph.next`: the next package in the prefer chain.  The Go
code indexes `g.visited[pkg]` which is always present at the call sites;
an absent package yields the empty string (the chain terminator). -/
def ConflictGraph.next (g : ConflictGraph) (pkg : String) : String :=
  match lookupA g.visited pkg with
  | some s => (contentsGet s g.path).prefer
  | none => ""

/-- `conflictGraph.findSlice`: the first slice of package `pkg` that
contains `path` (slice order standing for the Go map iteration order). -/
def findSlice (r : Release) (path pkg : String) : Except String Slice :=
  let slices :=
    match lookupA r.packages pkg with
    | some p => p.slices
    | none => []
  match slices.find? (fun kv => memA kv.2.contents path) with
  | some kv => Except.ok kv.2
  | none => Except.error ("package " ++ pkg ++ " does not have path " ++ path)

/-- `conflictGraph.findCycle`: the prefer cycle through `start`, rotated
so that its smallest package comes first. -/
def findCycleLoop (visited : List (String × Slice)) (path : String)
    (u : String) (acc : List String) (fuel : Nat) : List String :=
  match fuel with
  | 0 => acc
  | fuel + 1 =>
    if acc ≠ [] ∧ acc.head? = some u then acc
    else
      match acc with
      | [] =>
        findCycleLoop visited path
          (match lookupA visited u with
           | some s => (contentsGet s path).prefer
           | none => "") [u] fuel
      | _ =>
        findCycleLoop visited path
          (match lookupA visited u with
           | some s => (contentsGet s path).prefer
           | none => "") (acc ++ [u]) fuel

def findCycle (visited : List (String × Slice)) (path : String)
    (start : String) : List String :=
  let cycle := findCycleLoop visited path start [] (visited.length + 2)
  match cycle with
  | [] => cycle
  | c :: cs =>
    let m := cs.foldl (fun acc u => if strLtB u acc then u else acc) c
    let idx := (cycle.indexOf m)
    cycle.drop idx ++ cycle.take idx

/-- The dummy slice standing for a nil `*Slice` (never reached on the
inputs the theorems evaluate). -/
def nilSlice : Slice :=
  { package := "", name := "", essential := [], contents := [], mutateScript := "" }

/-- The sorted pair of slices named by walk's non-linear/disconnected
errors (ordered by package then name). -/
def walkErrPair (a b : Slice) : Slice × Slice :=
  if strLtB b.package a.package = true ∨
      (a.package = b.package ∧ strLtB b.name a.name = true) then
    (b, a)
  else (a, b)

/-- The loop of `conflictGraph.walk`.  The Go loop terminates because
every iteration either stops or adds a fresh package to `tempVisited`;
the fuel passed by `ConflictGraph.walk` therefore never runs out. -/
def walkLoop (r : Release) (gpath : String) (visited : List (String × Slice))
    (tempVisited : List (String × Slice)) (prev cur src dest : String) :
    Nat → Except String (List (String × Slice))
  | 0 => Except.error "internal error: prefer walk ran out of fuel"
  | fuel + 1 =>
    if memA tempVisited cur then
      let cycle := findCycle tempVisited gpath cur
      let s := (lookupA tempVisited (cycle.headD "")).getD nilSlice
      Except.error ("slice " ++ s.str ++ " path " ++ gpath ++
        " has a prefer cycle: " ++ String.intercalate ", " cycle)
    else if memA visited cur then
      if cur ≠ dest then
        let p := walkErrPair ((lookupA tempVisited src).getD nilSlice)
          ((lookupA visited dest).getD nilSlice)
        Except.error ("slices " ++ p.1.str ++ " and " ++ p.2.str ++
          " have a non-linear prefer relationship for path " ++ gpath)
      else Except.ok tempVisited
    else
      match findSlice r gpath cur with
      | Except.error e =>
        if prev ≠ "" then
          let prevSlice := (lookupA tempVisited prev).getD nilSlice
          Except.error ("slice " ++ prevSlice.str ++ " path " ++ gpath ++
            " has an invalid prefer " ++ cur ++ ": " ++ e)
        else Except.error e
      | Except.ok s =>
        let tempVisited := insertA tempVisited cur s
        let next := (contentsGet s gpath).prefer
        if next = "" then
          if dest ≠ "" then
            let p := walkErrPair ((lookupA tempVisited src).getD nilSlice)
              ((lookupA visited dest).getD nilSlice)
            Except.error ("slices " ++ p.1.str ++ " and " ++ p.2.str ++
              " have no prefer relationship for path " ++ gpath)
          else Except.ok tempVisited
        else if memA r.packages next then
          walkLoop r gpath visited tempVisited cur next src dest fuel
        else
          Except.error ("slice " ++ s.str ++
            " cannot prefer non-existent package for path " ++ gpath ++
            ": " ++ next)

/-- `conflictGraph.walk`: follow the prefer relationships from `src`,
expecting the chain to stop at `dest` (or at a tail when `dest` is empty);
on success merge the walked slices into the graph. -/
def ConflictGraph.walk (g : ConflictGraph) (r : Release) (src dest : String) :
    Except String ConflictGraph :=
  match walkLoop r g.path g.visited [] "" src src dest
      (r.packages.length + 2) with
  | Except.error e => Except.error e
  | Except.ok tempVisited =>
    let head :=
      if g.head.package ≠ src then (lookupA tempVisited src).getD g.head
      else g.head
    Except.ok { g with head := head, visited := mergeA g.visited tempVisited }

/-! ## Glob overlap (`internal/strdist`, spec-modelled) -/
/-- Split a character list on `/` separators (the behaviour of Go's
`strings.Split(s, "/")`). -/
def splitSlash : List Char → List (List Char)
  | [] => [[]]
  | c :: rest =>
    let tail := splitSlash rest
    if c = '/' then [] :: tail
    else
      match tail with
      | a :: as => (c :: a) :: as
      | [] => [[c]]

/-- Single-segment glob match: `?` is one non-separator character, `*` a
run of non-separator characters. -/
def segMatch : List Char → List Char → Bool
  | [], [] => true
  | '*' :: p, l =>
    segMatch p l ||
      (match l with
       | [] => false
       | _ :: l' => segMatch ('*' :: p) l')
  | '?' :: p, _ :: l => segMatch p l
  | c :: p, d :: l => c = d && segMatch p l
  | _, _ => false
  termination_by p l => p.length + l.length

/-- Does the segment contain a `**` wildcard? -/
def hasDoubleStar : List Char → Bool
  | '*' :: '*' :: _ => true
  | _ :: rest => hasDoubleStar rest
  | [] => false

/-- Overlap of two single segments: a wildcard-free pair overlaps iff
equal; a one-sided wildcard is matched against the literal side; two
wildcard segments may always refer to the same name. -/
def segOverlap (a b : List Char) : Bool :=
  let wa := a.any fun c => c = '*' || c = '?'
  let wb := b.any fun c => c = '*' || c = '?'
  if wa && wb then true
  else if wa then segMatch a b
  else if wb then segMatch b a
  else a = b

/-- Modelled from the spec: `strdist.GlobPath` (package `internal/strdist`
is not under `src/`).  Per spec 4.A, overlap is decided segment by
segment, consulting single-segment matching where a segment holds a
wildcard, and `**` absorbs the tail. -/
def globPathOverlap (a b : String) : Bool :=
  overlapSegs (splitSlash a.data) (splitSlash b.data)
where
  overlapSegs : List (List Char) → List (List Char) → Bool
    | [], [] => true
    | [], sb :: _ => hasDoubleStar sb
    | sa :: _, [] => hasDoubleStar sa
    | sa :: ra, sb :: rb =>
      if hasDoubleStar sa || hasDoubleStar sb then true
      else segOverlap sa sb && overlapSegs ra rb

/-! ## `Release.validate` (`part_007`) -/
/-- The state threaded through validate's conflict scan. -/
structure ValidateSt where
  globs : List (String × Slice)
  conflicts : List (String × ConflictGraph)
  deriving Repr

/-- One `newPath, newInfo` step of the conflict scan inside
`Release.validate`. -/
def validatePath (r : Release) (new : Slice) (newPath : String)
    (newInfo : PathInfo) (st : ValidateSt) : Except String ValidateSt :=
  match lookupA st.conflicts newPath with
  | some g =>
    let old := g.head
    let oldInfo := contentsGet old newPath
    match lookupA g.visited new.package with
    | some s =>
      let sInfo := contentsGet s newPath
      if newInfo.SameContent sInfo = false ∨ newInfo.prefer ≠ sInfo.prefer then
        Except.error (reportConflict s new newPath)
      else Except.ok st
    | none =>
      if newInfo.prefer ≠ "" then
        if g.visited.length > 1 ∧ g.isLinear = false then
          Except.error (reportConflict old new newPath)
        else
          match g.walk r new.package old.package with
          | Except.error e => Except.error e
          | Except.ok g' =>
            Except.ok { st with conflicts := insertA st.conflicts newPath g' }
      else
        if oldInfo.prefer ≠ "" ∨ newInfo.SameContent oldInfo = false ∨
            ((newInfo.kind = PathKind.copyPath ∨ newInfo.kind = PathKind.globPath) ∧
              new.package ≠ old.package) then
          Except.error (reportConflict old new newPath)
        else
          let g' := { g with visited := insertA g.visited new.package new }
          Except.ok { st with conflicts := insertA st.conflicts newPath g' }
  | none =>
    let globs :=
      if newInfo.kind = PathKind.generatePath ∨ newInfo.kind = PathKind.globPath then
        insertA st.globs newPath new
      else st.globs
    let g0 : ConflictGraph := { path := newPath, head := new, visited := [] }
    if newInfo.prefer ≠ "" then
      match g0.walk r new.package "" with
      | Except.error e => Except.error e
      | Except.ok g' =>
        Except.ok { globs := globs, conflicts := insertA st.conflicts newPath g' }
    else
      let g1 := { g0 with visited := [(new.package, new)] }
      Except.ok { globs := globs, conflicts := insertA st.conflicts newPath g1 }

/-- The conflict scan of `Release.validate`: iterate packages in sorted
name order, slices and contents in (map-iteration) list order, collecting
the slice keys on the way. -/
def validateScan (r : Release) :
    Except String (List SliceKey × ValidateSt) := do
  let pkgNames := sortStrs (r.packages.map Prod.fst)
  let mut keys : List SliceKey := []
  let mut st : ValidateSt := { globs := [], conflicts := [] }
  for pkgName in pkgNames do
    let pkg := (lookupA r.packages pkgName).getD
      { name := pkgName, path := "", archive := "", slices := [] }
    for kv in pkg.slices do
      let new := kv.2
      keys := keys ++ [⟨pkg.name, new.name⟩]
      for pv in new.contents do
        st ← validatePath r new pv.1 pv.2 st
  return (keys, st)

/-- The rank-assignment loop of `Release.validate`: walk the chain from
the head, handing out ranks 1, 2, 3, …. -/
def ranksLoop (g : ConflictGraph) (cur : String) (counter : Nat)
    (acc : List (String × Nat)) : Nat → List (String × Nat)
  | 0 => acc
  | fuel + 1 =>
    if cur = "" then acc
    else ranksLoop g (g.next cur) (counter + 1)
      (insertA acc cur (counter + 1)) fuel

/-- `conflictRanks` as populated by `Release.validate`: one rank map per
path whose prefer graph is linear. -/
def buildConflictRanks (r : Release) (conflicts : List (String × ConflictGraph)) :
    List (String × List (String × Nat)) :=
  conflicts.foldl
    (fun acc pg =>
      if pg.2.isLinear then
        insertA acc pg.1 (ranksLoop pg.2 pg.2.head.package 0 [] (r.packages.length + 2))
      else acc)
    []

/-- The glob/generate-versus-anything conflict check at the end of
`Release.validate`'s path scan. -/
def globConflictCheck (globs : List (String × Slice))
    (conflicts : List (String × ConflictGraph)) : Except String Unit := do
  for ov in globs do
    let oldPath := ov.1
    let old := ov.2
    let oldInfo := contentsGet old oldPath
    for nc in conflicts do
      let newPath := nc.1
      if newPath ≠ oldPath ∧ globPathOverlap newPath oldPath then
        for nv in nc.2.visited do
          let new := nv.2
          let newInfo := contentsGet new newPath
          let skip := oldInfo.kind = PathKind.globPath ∧
            (newInfo.kind = PathKind.globPath ∨ newInfo.kind = PathKind.copyPath) ∧
            new.package = old.package
          if ¬skip then
            let q :=
              if strLtB new.package old.package = true ∨
                  (old.package = new.package ∧ strLtB new.name old.name = true) ∨
                  (old.package = new.package ∧ old.name = new.name ∧
                    strLtB newPath oldPath = true) then
                ((new, newPath), (old, oldPath))
              else ((old, oldPath), (new, newPath))
            throw ("slices " ++ q.1.1.str ++ " and " ++ q.2.1.str ++
              " conflict on " ++ q.1.2 ++ " and " ++ q.2.2)
  return ()

/-! ## `tarjanSort` (spec-modelled) and `order` -/
/-- Fueled reachability closure over a successor map. -/
def reachFrom (succ : List (String × List String)) :
    Nat → List String → List String → List String
  | 0, _, visited => visited
  | _, [], visited => visited
  | fuel + 1, u :: rest, visited =>
    if visited.contains u then reachFrom succ fuel rest visited
    else reachFrom succ fuel (rest ++ (lookupA succ u).getD []) (visited ++ [u])

/-- The vertex set of a successor map: keys then edge targets, first
occurrence kept. -/
def graphVerts (succ : List (String × List String)) : List String :=
  (succ.map Prod.fst ++ succ.foldr (fun (kv : String × List String) acc => kv.2 ++ acc) []).dedup

/-- Fuel that dominates every traversal of the graph. -/
def graphFuel (succ : List (String × List String)) : Nat :=
  let e := succ.foldr (fun (kv : String × List String) acc => kv.2.length + acc) 0
  (e + succ.length + 2) * (e + succ.length + 2)

/-- Modelled from the spec: `tarjanSort` (its source file is not under
`src/`).  Per spec 4.E it is a Tarjan strongly-connected-component
decomposition of the successor graph; components are emitted in
dependency order (a component only after every component it points into),
ties resolved by scanning order, so that the slices of `order` come out
essentials-first. -/
def tarjanSort (succ : List (String × List String)) : List (List String) :=
  let verts := graphVerts succ
  let fuel := graphFuel succ
  let reach := fun u => reachFrom succ fuel [u] []
  let comps := verts.foldl
    (fun acc u =>
      if acc.any fun comp => comp.contains u then acc
      else acc ++ [verts.filter fun v => (reach u).contains v ∧ (reach v).contains u])
    []
  emitComps comps [] [] (comps.length + 1)
where
  emitComps (remaining : List (List String)) (emitted : List String)
      (acc : List (List String)) : Nat → List (List String)
    | 0 => acc ++ remaining
    | fuel + 1 =>
      match remaining.find? (fun comp =>
        comp.all fun u =>
          ((lookupA succ u).getD []).all fun v =>
            comp.contains v || emitted.contains v) with
      | none => acc ++ remaining
      | some comp =>
        emitComps (remaining.erase comp) (emitted ++ comp) (acc ++ [comp]) fuel

/-- The closure loop of `order`: walk the worklist of pending slice keys,
recording each seen slice's essentials as its predecessors and appending
them to the worklist. -/
def orderClosure (pkgs : List (String × Package)) :
    List SliceKey → List SliceKey → List (String × List String) → Nat →
    Except String (List (String × List String))
  | [], _, successors, _ => Except.ok successors
  | _, _, _, 0 => Except.error "internal error: order closure ran out of fuel"
  | key :: pending, seen, successors, fuel + 1 =>
    if seen.contains key then orderClosure pkgs pending seen successors fuel
    else
      let seen := seen ++ [key]
      match lookupA pkgs key.package with
      | none => Except.error "internal error: package vanished"
      | some pkg =>
        match lookupA pkg.slices key.slice with
        | none => Except.error "internal error: slice vanished"
        | some slice =>
          let fqslice := slice.str
          let start := (lookupA successors fqslice).getD []
          match slice.essential.foldl
              (fun acc req =>
                match acc with
                | Except.error e => Except.error e
                | Except.ok preds =>
                  let ok :=
                    match lookupA pkgs req.package with
                    | none => false
                    | some reqpkg => memA reqpkg.slices req.slice
                  if ok then Except.ok (preds ++ [req.str])
                  else
                    Except.error (fqslice ++ " requires " ++ req.str ++
                      ", but slice is missing"))
              (Except.ok start) with
          | Except.error e => Except.error e
          | Except.ok preds =>
            orderClosure pkgs (pending ++ slice.essential) seen
              (insertA successors fqslice preds) fuel

/-- Total number of essentials across a package map, used to bound the
closure worklist. -/
def totalEssentials (pkgs : List (String × Package)) : Nat :=
  pkgs.foldr (fun (kv : String × Package) acc =>
    kv.2.slices.foldr (fun (sv : String × Slice) a => sv.2.essential.length + a) acc) 0

/-- `setup.order`: check the requested keys, close them under essentials
and sort the slice graph, rejecting essential loops. -/
def orderKeys (pkgs : List (String × Package)) (keys : List SliceKey) :
    Except String (List SliceKey) := do
  for key in keys do
    match lookupA pkgs key.package with
    | none => throw ("slices of package " ++ key.package ++ " not found")
    | some pkg =>
      if memA pkg.slices key.slice = false then
        throw ("slice " ++ key.str ++ " not found")
  let successors ← orderClosure pkgs keys [] []
    (keys.length + (keys.length + totalEssentials pkgs + 1) * 2)
  let mut order : List SliceKey := []
  for names in tarjanSort successors do
    if names.length > 1 then
      throw ("essential loop detected: " ++ String.intercalate ", " names)
    let name := names.headD ""
    match splitUnder name.data with
    | some pn => order := order ++ [⟨String.mk pn.1, String.mk pn.2⟩]
    | none => throw "internal error: unqualified slice name"
  return order

/-- `Release.validate`: the conflict scan, rank assignment, glob conflict
check, essential-cycle check, archive priority uniqueness and archive
pinning checks; on success the release with `conflictRanks` filled in. -/
def Release.validate (r : Release) : Except String Release := do
  let (keys, st) ← validateScan r
  let ranks := buildConflictRanks r st.conflicts
  globConflictCheck st.globs st.conflicts
  let _ ← orderKeys r.packages keys
  let mut priorities : List (String × Archive) := []
  for av in r.archives do
    let archive := av.2
    match lookupA priorities (toString archive.priority) with
    | some old =>
      let p := if strLtB archive.name old.name then (archive, old) else (old, archive)
      throw ("chisel.yaml: archives " ++ p.1.name ++ " and " ++ p.2.name ++
        " have the same priority value of " ++ toString archive.priority)
    | none =>
      priorities := insertA priorities (toString archive.priority) archive
  for pv in r.packages do
    let pkg := pv.2
    if pkg.archive ≠ "" ∧ memA r.archives pkg.archive = false then
      throw (pkg.path ++ ": package refers to undefined archive " ++ pkg.archive)
  return { r with conflictRanks := ranks }

/-- `setup.Select`: order the requested keys, resolve them to slices and
check the `generate` values of the selected slices. -/
def Select (release : Release) (keys : List SliceKey) :
    Except String Selection := do
  let sorted ← orderKeys release.packages keys
  let slices := sorted.map fun key =>
    match lookupA release.packages key.package with
    | some pkg => (lookupA pkg.slices key.slice).getD nilSlice
    | none => nilSlice
  for new in slices do
    for pv in new.contents do
      match pv.2.generate with
      | GenerateKind.generateNone => pure ()
      | GenerateKind.generateManifest => pure ()
      | GenerateKind.generateOther tag =>
        throw ("slice " ++ new.str ++ " has invalid generate for path " ++
          pv.1 ++ ": " ++ tag)
  return { release := release, slices := slices }

/-! ## `Conflict.checkSamePkgConflict` and `conflictPriority` (`part_005`)

The variant setup package resolves a path conflict through a `Conflict`
value holding the conflicting `PathInfo` per full slice name.  Its errors
are embedded structurally: `conflictPair a b path` renders as the message
`slices <a> and <b> conflict on <path>`. -/
inductive ConflictErr where
  | invalidKey (msg : String)
  | conflictPair (a b path : String)
  deriving DecidableEq, Repr

/-- The message text of a `ConflictErr`, as produced by the Go
`fmt.Errorf` calls. -/
def ConflictErr.msg : ConflictErr → String
  | ConflictErr.invalidKey m => m
  | ConflictErr.conflictPair a b path =>
    "slices " ++ a ++ " and " ++ b ++ " conflict on " ++ path

/-- The loop of `Conflict.checkSamePkgConflict` over the `PathInfos` map.
`same` is the content-equivalence method the variant calls
(`PathInfo.SameContent`, with or without the `Prefer` field).  `pathInfos`
is the complete map, `todo` the iteration tail, and `pkgSlice` the
package-to-representative-slice map being populated. -/
def cspcLoop (same : PathInfo → PathInfo → Bool) (path : String)
    (pathInfos : List (String × PathInfo)) :
    List (String × PathInfo) → List (String × String) →
    Except ConflictErr (List (String × String))
  | [], pkgSlice => Except.ok pkgSlice
  | (newSlice, newInfo) :: todo, pkgSlice =>
    match ParseSliceKey newSlice with
    | Except.error e => Except.error (ConflictErr.invalidKey e)
    | Except.ok key =>
      match lookupA pkgSlice key.package with
      | none => cspcLoop same path pathInfos todo (insertA pkgSlice key.package newSlice)
      | some oldSlice =>
        let oldInfo := (lookupA pathInfos oldSlice).getD PathInfo.zero
        if same newInfo oldInfo = false then
          let p := if strLtB newSlice oldSlice then (newSlice, oldSlice)
            else (oldSlice, newSlice)
          Except.error (ConflictErr.conflictPair p.1 p.2 path)
        else
          cspcLoop same path pathInfos todo
            (if strLtB newSlice oldSlice then insertA pkgSlice key.package newSlice
             else pkgSlice)

/-- `Conflict.checkSamePkgConflict`: error iff two slices of one package
declare the path with different content; on success the
package-to-smallest-slice map. -/
def checkSamePkgConflict (same : PathInfo → PathInfo → Bool) (path : String)
    (pathInfos : List (String × PathInfo)) :
    Except ConflictErr (List (String × String)) :=
  cspcLoop same path pathInfos pathInfos []

/-- `conflictPriority` (`part_005`): heads get rank 0, the chain vertices
get ranks 1, 2, …, n in chain order. -/
def conflictPriority (heads chain : List String) : List (String × Nat) :=
  let p := heads.foldl (fun m u => insertA m u 0) []
  chain.enum.foldl (fun m iu => insertA m iu.2 (iu.1 + 1)) p

/-! ## The report (`internal/slicer/report.go`)

File modes are `io/fs.FileMode` words; only the directory bit (bit 31)
and the permission bits matter here, so modes are embedded as `Nat`.
Paths in the corpus are ASCII, where Go's byte counts agree with the
character counts used below. -/
/-- `fs.FileMode.IsDir`: the `ModeDir` bit. -/
def modeIsDir (mode : Nat) : Bool := mode.testBit 31

/-- `path/filepath.Clean` on a rooted path: drop empty and `.` segments,
resolve `..` against the stack, never escaping the root. -/
def cleanRooted (s : String) : String :=
  let segs := ((splitSlash s.data).map String.mk).foldl
    (fun acc seg =>
      if seg = "" ∨ seg = "." then acc
      else if seg = ".." then acc.dropLast
      else acc ++ [seg])
    ([] : List String)
  "/" ++ String.intercalate "/" segs

/-- `fsutil.Entry`, restricted to the fields `Report` reads. -/
structure FsEntry where
  path : String
  mode : Nat
  hash : String
  size : Nat
  link : String
  deriving DecidableEq, Repr

structure ReportEntry where
  path : String
  mode : Nat
  hash : String
  size : Nat
  slices : List String
  link : String
  mutated : Bool
  finalHash : String
  deriving DecidableEq, Repr

structure Report where
  root : String
  entries : List (String × ReportEntry)
  deriving DecidableEq, Repr

/-- `slicer.NewReport`. -/
def newReport (root : String) : Report :=
  { root := cleanRooted root ++ "/", entries := [] }

/-- `Report.relativePath`: reject paths outside the root, clean the
remainder and mark directories with a trailing slash. -/
def Report.relativePath (r : Report) (path : String) (isDir : Bool) :
    Except String String :=
  if List.isPrefixOf r.root.data path.data = false then
    Except.error (path ++ " outside of root " ++ r.root)
  else
    let relPath := cleanRooted ("/" ++ String.mk (path.data.drop r.root.length))
    Except.ok (if isDir then relPath ++ "/" else relPath)

/-- `entry.Slices[slice] = true` on the slice set of a report entry. -/
def slicesInsert (slices : List String) (s : String) : List String :=
  if slices.contains s then slices else slices ++ [s]

/-- `Report.Add`: insert a new entry, or merge into an existing entry of
the same path when mode, link, size and hash all agree (the value lists
of the Go error messages are elided). -/
def Report.Add (r : Report) (slice : String) (e : FsEntry) :
    Except String Report :=
  match r.relativePath e.path (modeIsDir e.mode) with
  | Except.error err => Except.error ("cannot add path: " ++ err)
  | Except.ok relPath =>
    match lookupA r.entries relPath with
    | some entry =>
      if e.mode ≠ entry.mode then
        Except.error ("path " ++ relPath ++ " reported twice with diverging mode")
      else if e.link ≠ entry.link then
        Except.error ("path " ++ relPath ++ " reported twice with diverging link")
      else if e.size ≠ entry.size then
        Except.error ("path " ++ relPath ++ " reported twice with diverging size")
      else if e.hash ≠ entry.hash then
        Except.error ("path " ++ relPath ++ " reported twice with diverging hash")
      else
        let entry' := { entry with slices := slicesInsert entry.slices slice }
        Except.ok { r with entries := insertA r.entries relPath entry' }
    | none =>
      let entry' : ReportEntry :=
        { path := relPath, mode := e.mode, hash := e.hash, size := e.size,
          slices := [slice], link := e.link, mutated := false, finalHash := "" }
      Except.ok { r with entries := insertA r.entries relPath entry' }

/-- `Report.AddMutated`: update only `FinalHash`, `Size` and the mutated
flag of an existing, not yet mutated entry. -/
def Report.AddMutated (r : Report) (e : FsEntry) : Except String Report :=
  match r.relativePath e.path (modeIsDir e.mode) with
  | Except.error err => Except.error ("cannot add path: " ++ err)
  | Except.ok relPath =>
    match lookupA r.entries relPath with
    | none => Except.error ("path " ++ relPath ++ " has not been added before")
    | some entry =>
      if entry.mutated then
        Except.error ("path " ++ relPath ++ " has been mutated once before")
      else
        let entry' :=
          { entry with mutated := true, finalHash := e.hash, size := e.size }
        Except.ok { r with entries := insertA r.entries relPath entry' }

/-! ## Manifest path rows (`cmd/chisel/db.go`) and jsonwall -/
/-- `fmt.Sprintf("0%o", mode & fs.ModePerm)`. -/
def modeOctal (mode : Nat) : String :=
  "0" ++ String.mk (Nat.toDigits 8 (mode % 512))

/-- A `"path"`-kind manifest row (`dbPath` / `Path` of `cmd/chisel`). -/
structure DbPath where
  kind : String
  path : String
  mode : String
  slices : List String
  hash : String
  finalHash : String
  size : Nat
  link : String
  deriving DecidableEq, Repr

/-- The path row built by `generateDB` for a report entry: the slice
names are collected in the iteration order of the entry's slice set and
added as they are. -/
def generateDBPathRow (entry : ReportEntry) : DbPath :=
  { kind := "path", path := entry.path, mode := modeOctal entry.mode,
    slices := entry.slices, hash := entry.hash, finalHash := "",
    size := entry.size, link := entry.link }

/-- The path row built by `generateManifest` for a report entry: the
slice names are passed through `sort.Strings` before the row is added. -/
def generateManifestPathRow (entry : ReportEntry) : DbPath :=
  { kind := "path", path := entry.path, mode := modeOctal entry.mode,
    slices := sortStrs entry.slices, hash := entry.hash, finalHash := "",
    size := entry.size, link := entry.link }

/-- The manifest path row of `generateManifest` for a manifest location
(`getManifestPath` result `fPath` with the manifest-generating slices):
also sorted with `sort.Strings`. -/
def generateManifestDbRow (fPath : String) (sliceNames : List String) : DbPath :=
  { kind := "path", path := fPath, mode := modeOctal 420,
    slices := sortStrs sliceNames, hash := "", finalHash := "",
    size := 0, link := "" }

/-- Modelled from the spec: the header line written by the jsonwall
database writer (package `internal/jsonwall` is not under `src/`).  The
`count` value is pinned by the `dbTests`/`writeDBTests` fixtures under
`src/`, which record `count: 17` over 16 rows: it counts every line of
the file, the header itself included. -/
def jsonwallHeader (schema : String) (count : Nat) : String :=
  "\x7b\"jsonwall\":\"1.0\",\"schema\":\"" ++ schema ++
    "\",\"count\":" ++ toString count ++ "\x7d"

/-- Modelled from the spec (and pinned by the fixtures under `src/`):
`jsonwall.DBWriter.WriteTo` emits the header line followed by the added
rows in sorted order. -/
def jsonwallWriteTo (schema : String) (rows : List String) : List String :=
  jsonwallHeader schema (rows.length + 1) :: sortStrs rows

/-! ## Concrete releases used by the theorems -/
/-- A slice with the given contents and no essentials or scripts. -/
def mkSlice (pkg name : String) (contents : List (String × PathInfo)) : Slice :=
  { package := pkg, name := name, essential := [], contents := contents,
    mutateScript := "" }

/-- A package with the given slices, in the default archive. -/
def mkPkg (name : String) (slices : List (String × Slice)) : Package :=
  { name := name, path := "slices/" ++ name ++ ".yaml", archive := "",
    slices := slices }

/-- A bare `copy` path entry. -/
def infoCopy : PathInfo := PathInfo.zero

/-- A path entry preferring package `pref`. -/
def infoPrefer (pref : String) : PathInfo := { PathInfo.zero with prefer := pref }

/-- Two packages owning disjoint paths; conflict-free, so `validate`
leaves `conflictRanks` empty. -/
def releaseDisjoint : Release :=
  { path := "", conflictRanks := [], archives := [],
    packages :=
      [("pkg-a", mkPkg ("pkg-a")
          [("data", mkSlice ("pkg-a") ("data") [("/a", infoCopy)])]),
       ("pkg-b", mkPkg ("pkg-b")
          [("data", mkSlice ("pkg-b") ("data") [("/b", infoCopy)])])] }

/-- The S6 slices: three packages declare `/etc/cfg`; `pkg-a` prefers
`pkg-b`, `pkg-b` prefers `pkg-c`, `pkg-c` has no prefer. -/
def sliceACfg : Slice := mkSlice ("pkg-a") ("cfg") [("/etc/cfg", infoPrefer ("pkg-b"))]

def sliceBCfg : Slice := mkSlice ("pkg-b") ("cfg") [("/etc/cfg", infoPrefer ("pkg-c"))]

def sliceCCfg : Slice := mkSlice ("pkg-c") ("cfg") [("/etc/cfg", infoPrefer (""))]

/-- Scenario S6's release. -/
def releaseChain : Release :=
  { path := "", conflictRanks := [], archives := [],
    packages :=
      [("pkg-a", mkPkg ("pkg-a") [("cfg", sliceACfg)]),
       ("pkg-b", mkPkg ("pkg-b") [("cfg", sliceBCfg)]),
       ("pkg-c", mkPkg ("pkg-c") [("cfg", sliceCCfg)])] }

/-- `releaseChain` after validation: ranks 1, 2, 3 along the chain. -/
def releaseChainValidated : Release :=
  { releaseChain with conflictRanks :=
      [("/etc/cfg", [("pkg-a", 1), ("pkg-b", 2), ("pkg-c", 3)])] }

/-! ## C5 — the jsonwall header count -/
/-- The sixteen rows of the `dbTests` fixture (`part_002`), in the order
the test adds them to the writer. -/
def dbTestRows : List String :=
  ["\x7b\"kind\":\"package\",\"name\":\"mypkg\",\"version\":\"12ubuntu4.6\",\"sha256\":\"522d1a2a9a41a86428d20e1a1b619946245ad5a62a348890f1630a6316b69f68\",\"arch\":\"amd64\"\x7d",
   "\x7b\"kind\":\"package\",\"name\":\"foo\",\"version\":\"1ubuntu2.9\",\"sha256\":\"b5bb9d8014a0f9b1d61e21e796d78dccdf1352f23cd32812f4850b878ae4944c\",\"arch\":\"amd64\"\x7d",
   "\x7b\"kind\":\"slice\",\"name\":\"mypkg_myslice\"\x7d",
   "\x7b\"kind\":\"slice\",\"name\":\"mypkg_otherslice\"\x7d",
   "\x7b\"kind\":\"slice\",\"name\":\"foo_bar\"\x7d",
   "\x7b\"kind\":\"path\",\"path\":\"/usr/bin/foo\",\"mode\":\"0644\",\"slices\":[\"foo_bar\"],\"sha256\":\"ebd0b5aaefd98c0f3a56f03d11cb27f858f257eb1206cb8f6264dc72aa8a2947\",\"size\":1234\x7d",
   "\x7b\"kind\":\"path\",\"path\":\"/bin/foo\",\"mode\":\"0644\",\"slices\":[\"foo_bar\"],\"link\":\"/usr/bin/foo\"\x7d",
   "\x7b\"kind\":\"path\",\"path\":\"/usr/bin/mypkg\",\"mode\":\"0775\",\"slices\":[\"mypkg_myslice\"],\"sha256\":\"c4ce8495a690e25636f83c00b5ee9128f78dcfea24523d2697dbd37114bb967a\",\"size\":49357\x7d",
   "\x7b\"kind\":\"path\",\"path\":\"/bin/\",\"mode\":\"0775\",\"slices\":[\"mypkg_myslice\",\"foo_bar\"]\x7d",
   "\x7b\"kind\":\"path\",\"path\":\"/etc/mypkg.conf\",\"mode\":\"0775\",\"slices\":[\"mypkg_otherslice\"],\"sha256\":\"c4a49783f9f135204582d2a95f2551c77d8200798fe2c36e774943243985553c\",\"final_sha256\":\"71f28b05f5b0a3af1776ae55d578c16a11f10aef7dd408421c35dac17ca7cbad\",\"size\":489\x7d",
   "\x7b\"kind\":\"content\",\"slice\":\"foo_bar\",\"path\":\"/usr/bin/foo\"\x7d",
   "\x7b\"kind\":\"content\",\"slice\":\"foo_bar\",\"path\":\"/bin/foo\"\x7d",
   "\x7b\"kind\":\"content\",\"slice\":\"foo_bar\",\"path\":\"/bin/\"\x7d",
   "\x7b\"kind\":\"content\",\"slice\":\"mypkg_myslice\",\"path\":\"/usr/bin/mypkg\"\x7d",
   "\x7b\"kind\":\"content\",\"slice\":\"mypkg_myslice\",\"path\":\"/bin/\"\x7d",
   "\x7b\"kind\":\"content\",\"slice\":\"mypkg_otherslice\",\"path\":\"/etc/mypkg.conf\"\x7d"]

/-- The full expected database of the `dbTests` fixture: the header line
with `count: 17` followed by the sixteen rows in sorted order. -/
def dbTestExpectedDB : List String :=
  ["\x7b\"jsonwall\":\"1.0\",\"schema\":\"1.0\",\"count\":17\x7d",
   "\x7b\"kind\":\"content\",\"slice\":\"foo_bar\",\"path\":\"/bin/\"\x7d",
   "\x7b\"kind\":\"content\",\"slice\":\"foo_bar\",\"path\":\"/bin/foo\"\x7d",
   "\x7b\"kind\":\"content\",\"slice\":\"foo_bar\",\"path\":\"/usr/bin/foo\"\x7d",
   "\x7b\"kind\":\"content\",\"slice\":\"mypkg_myslice\",\"path\":\"/bin/\"\x7d",
   "\x7b\"kind\":\"content\",\"slice\":\"mypkg_myslice\",\"path\":\"/usr/bin/mypkg\"\x7d",
   "\x7b\"kind\":\"content\",\"slice\":\"mypkg_otherslice\",\"path\":\"/etc/mypkg.conf\"\x7d",
   "\x7b\"kind\":\"package\",\"name\":\"foo\",\"version\":\"1ubuntu2.9\",\"sha256\":\"b5bb9d8014a0f9b1d61e21e796d78dccdf1352f23cd32812f4850b878ae4944c\",\"arch\":\"amd64\"\x7d",
   "\x7b\"kind\":\"package\",\"name\":\"mypkg\",\"version\":\"12ubuntu4.6\",\"sha256\":\"522d1a2a9a41a86428d20e1a1b619946245ad5a62a348890f1630a6316b69f68\",\"arch\":\"amd64\"\x7d",
   "\x7b\"kind\":\"path\",\"path\":\"/bin/\",\"mode\":\"0775\",\"slices\":[\"mypkg_myslice\",\"foo_bar\"]\x7d",
   "\x7b\"kind\":\"path\",\"path\":\"/bin/foo\",\"mode\":\"0644\",\"slices\":[\"foo_bar\"],\"link\":\"/usr/bin/foo\"\x7d",
   "\x7b\"kind\":\"path\",\"path\":\"/etc/mypkg.conf\",\"mode\":\"0775\",\"slices\":[\"mypkg_otherslice\"],\"sha256\":\"c4a49783f9f135204582d2a95f2551c77d8200798fe2c36e774943243985553c\",\"final_sha256\":\"71f28b05f5b0a3af1776ae55d578c16a11f10aef7dd408421c35dac17ca7cbad\",\"size\":489\x7d",
   "\x7b\"kind\":\"path\",\"path\":\"/usr/bin/foo\",\"mode\":\"0644\",\"slices\":[\"foo_bar\"],\"sha256\":\"ebd0b5aaefd98c0f3a56f03d11cb27f858f257eb1206cb8f6264dc72aa8a2947\",\"size\":1234\x7d",
   "\x7b\"kind\":\"path\",\"path\":\"/usr/bin/mypkg\",\"mode\":\"0775\",\"slices\":[\"mypkg_myslice\"],\"sha256\":\"c4ce8495a690e25636f83c00b5ee9128f78dcfea24523d2697dbd37114bb967a\",\"size\":49357\x7d",
   "\x7b\"kind\":\"slice\",\"name\":\"foo_bar\"\x7d",
   "\x7b\"kind\":\"slice\",\"name\":\"mypkg_myslice\"\x7d",
   "\x7b\"kind\":\"slice\",\"name\":\"mypkg_otherslice\"\x7d"]

/-! ## C6 — sorting of the slices list in path rows -/
/-- The `/bin/` entry of the `writeDBTests` fixture: a directory owned by
`mypkg_myslice` and `foo_bar`, in that (unsorted) iteration order, as in
the fixture's expected output. -/
def entryBinDir : ReportEntry :=
  { path := "/bin/", mode := 2147484157, hash := "", size := 0,
    slices := ["mypkg_myslice", "foo_bar"], link := "", mutated := false,
    finalHash := "" }

/-! ## C7 and C8 — `Report.Add` and `Report.AddMutated` -/
/-- The entry produced by `Report.Add`'s merge branch: only the slice set
is extended. -/
def ReportEntry.merged (entry : ReportEntry) (slice : String) : ReportEntry :=
  { entry with slices := slicesInsert entry.slices slice }

/-- The entry produced by `Report.AddMutated`: only `Size`, `FinalHash`
and the mutated flag change. -/
def ReportEntry.mutatedWith (entry : ReportEntry) (e : FsEntry) : ReportEntry :=
  { entry with mutated := true, finalHash := e.hash, size := e.size }

/-- A report with its entry map replaced. -/
def Report.withEntries (r : Report) (es : List (String × ReportEntry)) : Report :=
  { r with entries := es }

/-- The stored `/x` entry of the concrete report below. -/
def entryX : ReportEntry :=
  { path := "/x", mode := 420, hash := "h1", size := 5,
    slices := ["mypkg_myslice"], link := "", mutated := false,
    finalHash := "" }

/-- A concrete one-entry report rooted at `/root/`. -/
def reportOne : Report :=
  { root := "/root/", entries := [("/x", entryX)] }

/-- The matching re-report of `/x` by another slice. -/
def entrySame : FsEntry :=
  { path := "/root/x", mode := 420, hash := "h1", size := 5, link := "" }

/-! ## C4 — the same-package conflict check

The loop invariant: for every package, the representative slice stored in
`pkgSlice` was processed, belongs to that package, and its path info is
content-equal to that of every processed slice of the package. -/
/-- Fixture for the same-package conflict check: two slices of `pkg-a`
declaring one path with different modes. -/
def c4infoA : PathInfo :=
  { PathInfo.zero with mode := 420 }

def c4infoB : PathInfo :=
  { PathInfo.zero with mode := 493 }

def c4infos : List (String × PathInfo) :=
  [("pkg-a_slice1", c4infoA), ("pkg-a_slice2", c4infoB)]

/-- Fixture mirroring the staged `conflictTests` case "Different prefer
from same package" (`part_008`): two slices of `pkg-a` declaring one text
path, differing only in the `Prefer` field. -/
def c4preferB : PathInfo :=
  { PathInfo.zero with kind := PathKind.textPath, prefer := "pkg-b" }

def c4preferC : PathInfo :=
  { PathInfo.zero with kind := PathKind.textPath, prefer := "pkg-c" }

def c4preferInfos : List (String × PathInfo) :=
  [("pkg-a_slice1", c4preferB), ("pkg-a_slice2", c4preferC)]

/-- The package of a full slice name, per `ParseSliceKey`. -/
def pkgOf (s : String) : String :=
  match ParseSliceKey s with
  | Except.ok k => k.package
  | Except.error _ => ""

/-- The invariant carried through `cspcLoop`. -/
def cspcInv (same : PathInfo → PathInfo → Bool)
    (infos processed : List (String × PathInfo))
    (pkgSlice : List (String × String)) : Prop :=
  ∀ pk : String,
    match lookupA pkgSlice pk with
    | some sl => sl ∈ processed.map Prod.fst ∧ pkgOf sl = pk ∧
        ∀ t jt, (t, jt) ∈ processed → pkgOf t = pk →
          same jt ((lookupA infos sl).getD PathInfo.zero) = true
    | none => ∀ t ∈ processed.map Prod.fst, pkgOf t ≠ pk

theorem lookupA_insertA_self {α : Type} (m : List (String × α)) (k : String)
    (v : α) : lookupA (insertA m k v) k = some v := by
  induction m with
  | nil => simp [insertA, lookupA]
  | cons hd tl ih =>
    obtain ⟨k', v'⟩ := hd
    by_cases h : k' = k <;> simp [insertA, lookupA, h, ih]

theorem lookupA_insertA_ne {α : Type} (m : List (String × α)) (k k' : String)
    (v : α) (h : k ≠ k') : lookupA (insertA m k v) k' = lookupA m k' := by
  induction m with
  | nil => simp [insertA, lookupA, h]
  | cons hd tl ih =>
    obtain ⟨k₀, v₀⟩ := hd
    by_cases h₀ : k₀ = k
    · subst h₀
      simp [insertA, lookupA, h]
    · simp [insertA, lookupA, h₀, ih]

theorem listLt_asymm {a b : List Char} (h : listLt a b = true) :
    listLt b a = false := by
  induction a generalizing b with
  | nil =>
    cases b with
    | nil => simp [listLt] at h
    | cons y ys => simp [listLt]
  | cons x xs ih =>
    cases b with
    | nil => simp [listLt] at h
    | cons y ys =>
      by_cases hxy : x.toNat < y.toNat
      · have hyx : ¬y.toNat < x.toNat := Nat.lt_asymm hxy
        simp [listLt, hxy, hyx]
      · by_cases hyx : y.toNat < x.toNat
        · simp [listLt, hxy, hyx] at h
        · simp [listLt, hxy, hyx] at h ⊢
          exact ih h

theorem charToNat_inj {a b : Char} (h : a.toNat = b.toNat) : a = b := by
  apply Char.ext
  cases ha : a.val with
  | mk av =>
    cases hb : b.val with
    | mk bv =>
      have h' : av.toNat = bv.toNat := by
        simpa [Char.toNat, UInt32.toNat, ha, hb] using h
      rw [BitVec.eq_of_toNat_eq h']

theorem listLt_conn {a b : List Char} (ha : listLt a b = false)
    (hb : listLt b a = false) : a = b := by
  induction a generalizing b with
  | nil =>
    cases b with
    | nil => rfl
    | cons y ys => simp [listLt] at ha
  | cons x xs ih =>
    cases b with
    | nil => simp [listLt] at hb
    | cons y ys =>
      by_cases hxy : x.toNat < y.toNat
      · simp [listLt, hxy] at ha
      · by_cases hyx : y.toNat < x.toNat
        · simp [listLt, hyx, Nat.lt_asymm hyx] at hb
        · simp [listLt, hxy, hyx] at ha hb
          have hx : x = y := charToNat_inj (Nat.le_antisymm
            (Nat.le_of_not_lt hyx) (Nat.le_of_not_lt hxy))
          rw [hx, ih ha hb]

theorem listLt_trans {a b c : List Char} (hab : listLt a b = true)
    (hbc : listLt b c = true) : listLt a c = true := by
  induction a generalizing b c with
  | nil =>
    cases c with
    | nil =>
      cases b with
      | nil => simp [listLt] at hab
      | cons y ys => simp [listLt] at hbc
    | cons z zs => simp [listLt]
  | cons x xs ih =>
    cases b with
    | nil => simp [listLt] at hab
    | cons y ys =>
      cases c with
      | nil => simp [listLt] at hbc
      | cons z zs =>
        by_cases hxy : x.toNat < y.toNat
        · by_cases hyz : y.toNat < z.toNat
          · simp [listLt, Nat.lt_trans hxy hyz]
          · by_cases hzy : z.toNat < y.toNat
            · simp [listLt, hyz, hzy] at hbc
            · have : y.toNat = z.toNat := Nat.le_antisymm
                (Nat.le_of_not_lt hzy) (Nat.le_of_not_lt hyz)
              simp [listLt, this ▸ hxy]
        · by_cases hyx : y.toNat < x.toNat
          · simp [listLt, hxy, hyx] at hab
          · have hxey : x.toNat = y.toNat := Nat.le_antisymm
              (Nat.le_of_not_lt hyx) (Nat.le_of_not_lt hxy)
            simp only [listLt, hxy, hyx, if_false] at hab
            by_cases hyz : y.toNat < z.toNat
            · simp [listLt, hxey ▸ hyz]
            · by_cases hzy : z.toNat < y.toNat
              · simp [listLt, hyz, hzy] at hbc
              · simp only [listLt, hyz, hzy, if_false] at hbc
                have hxz : ¬x.toNat < z.toNat := by
                  omega
                have hzx : ¬z.toNat < x.toNat := by
                  omega
                simp [listLt, hxz, hzx]
                exact ih hab hbc

theorem strLeB_total (a b : String) :
    strLeB a b = true ∨ strLeB b a = true := by
  by_cases h : listLt b.data a.data = true
  · right
    simp [strLeB, strLtB, listLt_asymm h]
  · left
    simp [strLeB, strLtB]
    simpa using h

theorem strLeB_trans {a b c : String} (hab : strLeB a b = true)
    (hbc : strLeB b c = true) : strLeB a c = true := by
  simp only [strLeB, strLtB, Bool.not_eq_true'] at hab hbc ⊢
  by_cases hca : listLt c.data a.data = true
  · by_cases hbcl : listLt b.data c.data = true
    · have : listLt b.data a.data = true := listLt_trans hbcl hca
      simp [this] at hab
    · have heq : b.data = c.data := listLt_conn (by simpa using hbcl) hbc
      rw [← heq] at hca
      simp [hca] at hab
  · simpa using hca

theorem sortStrs_sorted (l : List String) :
    List.Sorted (fun a b : String => strLeB a b = true) (sortStrs l) :=
  @List.sorted_insertionSort String (fun a b => strLeB a b = true)
    (fun _ _ => instDecidableEqBool _ _)
    ⟨fun a b => strLeB_total a b⟩ ⟨fun _ _ _ => strLeB_trans⟩ l

theorem sortStrs_length (l : List String) :
    (sortStrs l).length = l.length :=
  (List.perm_insertionSort (fun a b => strLeB a b = true) l).length_eq

theorem sortStrs_mem (x : String) (l : List String) :
    x ∈ sortStrs l ↔ x ∈ l :=
  (List.perm_insertionSort (fun a b => strLeB a b = true) l).mem_iff

/-! ## C1 — the provider predicate -/
/-- Characterization of `Selection.SelectPackage`: true iff the path is
unranked, or the package is ranked and no selected package outranks it. -/
theorem selectPackage_true_iff (sel : Selection) (path pkg : String) :
    sel.SelectPackage path pkg = true ↔
      (lookupA sel.release.conflictRanks path = none ∨
        ∃ ranks pkgRank,
          lookupA sel.release.conflictRanks path = some ranks ∧
          lookupA ranks pkg = some pkgRank ∧
          ∀ slice ∈ sel.slices, ∀ rank,
            lookupA ranks slice.package = some rank → rank ≤ pkgRank) := by
  unfold Selection.SelectPackage
  cases hr : lookupA sel.release.conflictRanks path with
  | none => simp
  | some ranks =>
    cases hp : lookupA ranks pkg with
    | none =>
      simp only [hp]
      constructor
      · intro h
        cases h
      · rintro (h | ⟨ranks', pkgRank', hranks', hp', _⟩)
        · cases h
        · rw [Option.some_inj] at hranks'
          subst hranks'
          rw [hp] at hp'
          cases hp'
    | some pkgRank =>
      simp only [hp, List.all_eq_true]
      constructor
      · intro h
        right
        refine ⟨ranks, pkgRank, rfl, hp, ?_⟩
        intro slice hs rank hrank
        have := h slice hs
        rw [hrank] at this
        simpa [Nat.not_lt] using this
      · rintro (h | ⟨ranks', pkgRank', hranks', hp', hall⟩)
        · cases h
        · rw [Option.some_inj] at hranks'
          subst hranks'
          rw [hp, Option.some_inj] at hp'
          subst hp'
          intro slice hs
          cases hrank : lookupA ranks slice.package with
          | none => simp
          | some rank =>
            have := hall slice hs rank hrank
            simpa [Nat.not_lt] using this

/-- C1: for every selection and path, the provider predicate
(`Selection.SelectPackage`, alias `Selection.PackageProvidesPath`)
returns true for a package iff either the path is absent from the
release's path-priority map, or the package holds a rank for the path and
no selected slice's package holds a strictly higher rank; and on the S6
release (three packages on `/etc/cfg`, A prefer B, B prefer C, C no
prefer) selecting A and C makes C the provider (and not A), while
selecting A alone makes A the provider. -/
theorem c1_provider_predicate :
    (∀ (sel : Selection) (pkg path : String),
      sel.PackageProvidesPath pkg path = sel.SelectPackage path pkg) ∧
    (∀ (sel : Selection) (path pkg : String),
      sel.SelectPackage path pkg = true ↔
        (lookupA sel.release.conflictRanks path = none ∨
          ∃ ranks pkgRank,
            lookupA sel.release.conflictRanks path = some ranks ∧
            lookupA ranks pkg = some pkgRank ∧
            ∀ slice ∈ sel.slices, ∀ rank,
              lookupA ranks slice.package = some rank → rank ≤ pkgRank)) ∧
    releaseChain.validate = Except.ok releaseChainValidated ∧
    (Select releaseChainValidated [⟨"pkg-a", "cfg"⟩, ⟨"pkg-c", "cfg"⟩]).map
      (fun sel => (sel.SelectPackage ("/etc/cfg") ("pkg-c"),
        sel.SelectPackage ("/etc/cfg") ("pkg-a"))) = Except.ok (true, false) ∧
    (Select releaseChainValidated [⟨"pkg-a", "cfg"⟩]).map
      (fun sel => sel.SelectPackage ("/etc/cfg") ("pkg-a")) = Except.ok true :=
  ⟨fun _ _ _ => rfl, selectPackage_true_iff, by rfl, by rfl, by rfl⟩

/-! ## C2 — `conflictPriority` rank assignment -/
theorem lookupA_foldl_insert_zero (l : List String) (acc : List (String × Nat))
    (u : String) (h : u ∈ l ∨ lookupA acc u = some 0) :
    lookupA (l.foldl (fun m x => insertA m x 0) acc) u = some 0 := by
  induction l generalizing acc with
  | nil =>
    rcases h with h | h
    · cases h
    · simpa using h
  | cons x xs ih =>
    simp only [List.foldl_cons]
    apply ih
    rcases h with h | h
    · rcases List.mem_cons.mp h with h | h
      · right
        rw [h]
        exact lookupA_insertA_self acc x 0
      · left
        exact h
    · right
      by_cases hx : x = u
      · rw [hx]
        exact lookupA_insertA_self acc u 0
      · rw [lookupA_insertA_ne acc x u 0 hx]
        exact h

theorem lookupA_foldl_insert_preserve (l : List (Nat × String))
    (acc : List (String × Nat)) (u : String) (h : ∀ p ∈ l, p.2 ≠ u) :
    lookupA (l.foldl (fun m iu => insertA m iu.2 (iu.1 + 1)) acc) u =
      lookupA acc u := by
  induction l generalizing acc with
  | nil => rfl
  | cons p ps ih =>
    simp only [List.foldl_cons]
    rw [ih _ fun q hq => h q (List.mem_cons_of_mem p hq)]
    exact lookupA_insertA_ne acc p.2 u (p.1 + 1) (h p (List.mem_cons_self p ps))

theorem snd_mem_of_mem_enumFrom {l : List String} {k : Nat} {p : Nat × String}
    (h : p ∈ l.enumFrom k) : p.2 ∈ l := by
  induction l generalizing k with
  | nil => cases h
  | cons x xs ih =>
    rcases List.mem_cons.mp h with h | h
    · subst h
      exact List.mem_cons_self x xs
    · exact List.mem_cons_of_mem x (ih h)

theorem lookupA_chain_fold (chain : List String) (k : Nat)
    (acc : List (String × Nat)) (hnd : chain.Nodup) :
    ∀ j x, chain.get? j = some x →
      lookupA ((chain.enumFrom k).foldl
        (fun m iu => insertA m iu.2 (iu.1 + 1)) acc) x = some (k + j + 1) := by
  induction chain generalizing k acc with
  | nil =>
    intro j x hj
    cases j <;> cases hj
  | cons c cs ih =>
    intro j x hj
    cases j with
    | zero =>
      rw [List.get?_cons_zero, Option.some_inj] at hj
      simp only [List.enumFrom, List.foldl_cons]
      rw [lookupA_foldl_insert_preserve _ _ x
        (fun p hp hpx => (List.nodup_cons.mp hnd).1
          (hj ▸ hpx ▸ snd_mem_of_mem_enumFrom hp))]
      rw [← hj]
      simpa using lookupA_insertA_self acc c (k + 1)
    | succ j =>
      rw [List.get?_cons_succ] at hj
      simp only [List.enumFrom, List.foldl_cons]
      have := ih (k + 1) (insertA acc c (k + 1)) (List.nodup_cons.mp hnd).2 j x hj
      rw [this]
      congr 1
      omega

/-- C2: on a valid prefer graph (heads disjoint from the chain, chain
without repetitions), `conflictPriority` assigns rank 0 to every head
vertex and rank `i + 1` to the `i`-th chain vertex, as a map from package
name to rank. -/
theorem c2_conflict_priority (heads chain : List String)
    (hdisj : ∀ u ∈ heads, u ∉ chain) (hnd : chain.Nodup) :
    (∀ u ∈ heads, lookupA (conflictPriority heads chain) u = some 0) ∧
    (∀ j x, chain.get? j = some x →
      lookupA (conflictPriority heads chain) x = some (j + 1)) := by
  unfold conflictPriority
  constructor
  · intro u hu
    have h0 : lookupA (heads.foldl (fun m x => insertA m x 0) []) u = some 0 :=
      lookupA_foldl_insert_zero heads [] u (Or.inl hu)
    have hpres := lookupA_foldl_insert_preserve (chain.enum)
      (heads.foldl (fun m x => insertA m x 0) []) u
      (fun p hp hpx => hdisj u hu (hpx ▸ snd_mem_of_mem_enumFrom hp))
    exact hpres.trans h0
  · intro j x hj
    have := lookupA_chain_fold chain 0
      (heads.foldl (fun m x => insertA m x 0) []) hnd j x hj
    simpa using this

/-! ## C3 — how many selected packages provide a path -/
/-- A key of an association list at which the lookup succeeds is among
the stored keys. -/
theorem mem_keys_of_lookupA {α : Type} {m : List (String × α)} {k : String}
    {v : α} (h : lookupA m k = some v) : k ∈ m.map Prod.fst := by
  induction m with
  | nil => cases h
  | cons hd tl ih =>
    obtain ⟨k', v'⟩ := hd
    by_cases hk : k' = k
    · simp [hk]
    · simp only [lookupA, hk, if_false] at h
      simp [ih h]

/-- C3 counterexample: `releaseDisjoint` validates successfully and its
path-priority map stays empty, yet in the selection of both of its
packages the provider predicate answers true for `pkg-a` *and* `pkg-b`
on path `/a` — two distinct selected packages are providers at once. -/
theorem c3_counterexample :
    releaseDisjoint.validate = Except.ok releaseDisjoint ∧
    (Select releaseDisjoint [⟨"pkg-a", "data"⟩, ⟨"pkg-b", "data"⟩]).map
      (fun sel => (sel.slices.map Slice.package,
        sel.SelectPackage ("/a") ("pkg-a"),
        sel.SelectPackage ("/a") ("pkg-b"))) =
      Except.ok (["pkg-a", "pkg-b"], true, true) ∧
    ("pkg-a" : String) ≠ "pkg-b" :=
  ⟨rfl, rfl, by decide⟩

/-- C3 (amended): for paths that are present in the path-priority map
(every path with a validated prefer chain; their ranks are pairwise
distinct), at most one selected package gets a true provider predicate.
For paths absent from the map the predicate returns true for every
package, so several selected packages can be providers at once. -/
theorem c3_amended (sel : Selection) (path : String)
    (ranks : List (String × Nat))
    (hpath : lookupA sel.release.conflictRanks path = some ranks)
    (hinj : ∀ p ∈ ranks.map Prod.fst, ∀ q ∈ ranks.map Prod.fst,
      lookupA ranks p = lookupA ranks q → p = q) :
    ∀ s1 ∈ sel.slices, ∀ s2 ∈ sel.slices,
      sel.SelectPackage path s1.package = true →
      sel.SelectPackage path s2.package = true →
      s1.package = s2.package := by
  intro s1 h1 s2 h2 hp1 hp2
  rcases (selectPackage_true_iff sel path s1.package).mp hp1 with h | ⟨r1, rk1, hr1, hl1, hall1⟩
  · rw [hpath] at h
    cases h
  · rcases (selectPackage_true_iff sel path s2.package).mp hp2 with h | ⟨r2, rk2, hr2, hl2, hall2⟩
    · rw [hpath] at h
      cases h
    · rw [hpath, Option.some_inj] at hr1 hr2
      subst hr1
      subst hr2
      have h12 : rk2 ≤ rk1 := hall1 s2 h2 rk2 hl2
      have h21 : rk1 ≤ rk2 := hall2 s1 h1 rk1 hl1
      have hrk : rk1 = rk2 := Nat.le_antisymm h21 h12
      exact hinj s1.package (mem_keys_of_lookupA hl1) s2.package
        (mem_keys_of_lookupA hl2) (by rw [hl1, hl2, hrk])

/-- Witness for the amended C3, on the validated S6 chain release. -/
theorem c3_amended_witness : sliceCCfg.package = sliceCCfg.package :=
  c3_amended
    { release := releaseChainValidated, slices := [sliceACfg, sliceCCfg] }
    ("/etc/cfg") [("pkg-a", 1), ("pkg-b", 2), ("pkg-c", 3)] (by rfl)
    (by decide) sliceCCfg (by decide) sliceCCfg (by decide) (by rfl) (by rfl)

/-- Witness for C2, on the prefer graph of the `conflictTests` fixture
(heads `pkg-a`, `pkg-b`, `pkg-c`; chain `pkg-x`, `pkg-y`, `pkg-z`). -/
theorem c2_conflict_priority_witness :
    lookupA (conflictPriority ["pkg-a", "pkg-b", "pkg-c"]
      ["pkg-x", "pkg-y", "pkg-z"]) ("pkg-b") = some 0 ∧
    lookupA (conflictPriority ["pkg-a", "pkg-b", "pkg-c"]
      ["pkg-x", "pkg-y", "pkg-z"]) ("pkg-z") = some 3 := by
  have h := c2_conflict_priority ["pkg-a", "pkg-b", "pkg-c"]
    ["pkg-x", "pkg-y", "pkg-z"] (by decide) (by decide)
  exact ⟨h.1 ("pkg-b") (by decide), h.2 2 ("pkg-z") (by decide)⟩

set_option maxRecDepth 8000 in
/-- C5 counterexample: on the sixteen rows of the repository's own
`dbTests` fixture, the written database is exactly the fixture (header
`count: 17`), yet only sixteen rows follow the header: the count is not
the number of subsequent rows. -/
theorem c5_counterexample :
    jsonwallWriteTo ("1.0") dbTestRows = dbTestExpectedDB ∧
    (jsonwallWriteTo ("1.0") dbTestRows).headD "" = jsonwallHeader ("1.0") 17 ∧
    (jsonwallWriteTo ("1.0") dbTestRows).tail.length = 16 ∧
    (17 : Nat) ≠ 16 := by
  refine ⟨by decide, by decide, ?_, by decide⟩
  simp [jsonwallWriteTo, sortStrs_length, dbTestRows]

/-- C5 (amended): the first line of every written jsonwall database is
the header, whose `count` equals the total number of lines of the
database — one more than the number of rows that follow it. -/
theorem c5_amended (schema : String) (rows : List String) :
    jsonwallWriteTo schema rows =
      jsonwallHeader schema ((jsonwallWriteTo schema rows).length) ::
        sortStrs rows ∧
    (jsonwallWriteTo schema rows).tail.length = rows.length := by
  constructor
  · show jsonwallHeader schema (rows.length + 1) :: sortStrs rows = _
    have hlen : (jsonwallWriteTo schema rows).length = rows.length + 1 := by
      simp [jsonwallWriteTo, sortStrs_length]
    rw [hlen]
  · simp [jsonwallWriteTo, sortStrs_length]

/-- C6 counterexample: the path row `generateDB` builds for the `/bin/`
fixture entry carries the slice names in iteration order,
`["mypkg_myslice", "foo_bar"]`, which is not sorted (the repository's own
`writeDBTests` fixture records exactly this unsorted row). -/
theorem c6_counterexample :
    (generateDBPathRow entryBinDir).slices = ["mypkg_myslice", "foo_bar"] ∧
    (generateDBPathRow entryBinDir).mode = "0775" ∧
    strLeB ("mypkg_myslice") ("foo_bar") = false ∧
    ¬ List.Sorted (fun a b : String => strLeB a b = true)
      (generateDBPathRow entryBinDir).slices := by
  refine ⟨by decide, by decide, by decide, ?_⟩
  intro h
  have := (List.sorted_cons.mp h).1 ("foo_bar") (by decide)
  exact absurd this (by decide)

/-- C6 (amended): `generateManifest` sorts the slices list of every path
row with `sort.Strings` before adding the row (the list is a sorted
permutation of the entry's slice set), while `generateDB` passes the
iteration order through unsorted. -/
theorem c6_amended (entry : ReportEntry) :
    List.Sorted (fun a b : String => strLeB a b = true)
      (generateManifestPathRow entry).slices ∧
    List.Perm (generateManifestPathRow entry).slices entry.slices ∧
    (generateManifestPathRow entry).path = entry.path ∧
    (generateDBPathRow entry).slices = entry.slices :=
  ⟨sortStrs_sorted entry.slices,
   List.perm_insertionSort (fun a b => strLeB a b = true) entry.slices,
   rfl, rfl⟩

/-- C7: when an entry already exists at the computed relative path,
`Report.Add` succeeds iff the new entry's mode, link, size and hash all
equal the stored ones; merging only extends the entry's slice set and
leaves every other entry untouched, and any mismatch yields an error. -/
theorem c7_report_add_merge (r : Report) (slice : String) (e : FsEntry)
    (relPath : String) (entry : ReportEntry)
    (hrel : r.relativePath e.path (modeIsDir e.mode) = Except.ok relPath)
    (hent : lookupA r.entries relPath = some entry) :
    ((∃ r', r.Add slice e = Except.ok r') ↔
      (e.mode = entry.mode ∧ e.link = entry.link ∧ e.size = entry.size ∧
        e.hash = entry.hash)) ∧
    ((e.mode = entry.mode ∧ e.link = entry.link ∧ e.size = entry.size ∧
        e.hash = entry.hash) →
      r.Add slice e = Except.ok
        (r.withEntries (insertA r.entries relPath (entry.merged slice)))) ∧
    (¬(e.mode = entry.mode ∧ e.link = entry.link ∧ e.size = entry.size ∧
        e.hash = entry.hash) →
      ∃ msg, r.Add slice e = Except.error msg) ∧
    (∀ r', r.Add slice e = Except.ok r' →
      r'.root = r.root ∧
      lookupA r'.entries relPath = some (entry.merged slice) ∧
      ∀ p, p ≠ relPath → lookupA r'.entries p = lookupA r.entries p) := by
  have hok : (e.mode = entry.mode ∧ e.link = entry.link ∧ e.size = entry.size ∧
      e.hash = entry.hash) →
      r.Add slice e = Except.ok
        (r.withEntries (insertA r.entries relPath (entry.merged slice))) := by
    rintro ⟨h1, h2, h3, h4⟩
    simp only [Report.Add, hrel, hent]
    rw [if_neg (not_not_intro h1), if_neg (not_not_intro h2),
      if_neg (not_not_intro h3), if_neg (not_not_intro h4)]
    rfl
  have herr : ¬(e.mode = entry.mode ∧ e.link = entry.link ∧
      e.size = entry.size ∧ e.hash = entry.hash) →
      ∃ msg, r.Add slice e = Except.error msg := by
    intro hne
    by_cases h1 : e.mode = entry.mode
    · by_cases h2 : e.link = entry.link
      · by_cases h3 : e.size = entry.size
        · by_cases h4 : e.hash = entry.hash
          · exact absurd ⟨h1, h2, h3, h4⟩ hne
          · exact ⟨_, by
              simp only [Report.Add, hrel, hent]
              rw [if_neg (not_not_intro h1), if_neg (not_not_intro h2),
                if_neg (not_not_intro h3), if_pos h4]⟩
        · exact ⟨_, by
            simp only [Report.Add, hrel, hent]
            rw [if_neg (not_not_intro h1), if_neg (not_not_intro h2),
              if_pos h3]⟩
      · exact ⟨_, by
          simp only [Report.Add, hrel, hent]
          rw [if_neg (not_not_intro h1), if_pos h2]⟩
    · exact ⟨_, by
        simp only [Report.Add, hrel, hent]
        rw [if_pos h1]⟩
  refine ⟨⟨?_, fun h => ⟨_, hok h⟩⟩, hok, herr, ?_⟩
  · rintro ⟨r', hr'⟩
    by_contra hne
    obtain ⟨msg, hmsg⟩ := herr hne
    rw [hr'] at hmsg
    cases hmsg
  · intro r' hr'
    by_cases hc : e.mode = entry.mode ∧ e.link = entry.link ∧
        e.size = entry.size ∧ e.hash = entry.hash
    · rw [hok hc, Except.ok.injEq] at hr'
      subst hr'
      refine ⟨rfl, lookupA_insertA_self _ _ _, ?_⟩
      intro p hp
      exact lookupA_insertA_ne _ _ _ _ fun h => hp h.symm
    · obtain ⟨msg, hmsg⟩ := herr hc
      rw [hr'] at hmsg
      cases hmsg

/-- Witness for C7: merging an identical entry into `reportOne`
succeeds. -/
theorem c7_report_add_merge_witness :
    ∃ r', reportOne.Add ("foo_bar") entrySame = Except.ok r' :=
  (c7_report_add_merge reportOne ("foo_bar") entrySame ("/x") entryX
      (by rfl) (by rfl)).1.mpr ⟨rfl, rfl, rfl, rfl⟩

/-- C8: `Report.AddMutated` on an existing, not yet mutated entry updates
only `Size`, `FinalHash` and the mutated flag (path, mode, hash, link and
the slice set are unchanged, other entries untouched); a second call for
the same path, or a call for a path never added, returns an error. -/
theorem c8_add_mutated (r : Report) (e : FsEntry) (relPath : String)
    (entry : ReportEntry)
    (hrel : r.relativePath e.path (modeIsDir e.mode) = Except.ok relPath)
    (hent : lookupA r.entries relPath = some entry) :
    (entry.mutated = false →
      ∃ entry', r.AddMutated e =
          Except.ok (r.withEntries (insertA r.entries relPath entry')) ∧
        entry'.path = entry.path ∧ entry'.mode = entry.mode ∧
        entry'.hash = entry.hash ∧ entry'.link = entry.link ∧
        entry'.slices = entry.slices ∧ entry'.mutated = true ∧
        entry'.finalHash = e.hash ∧ entry'.size = e.size ∧
        ∀ p, p ≠ relPath →
          lookupA (insertA r.entries relPath entry') p = lookupA r.entries p) ∧
    (entry.mutated = true → ∃ msg, r.AddMutated e = Except.error msg) ∧
    (entry.mutated = false → ∀ e2 : FsEntry, e2.path = e.path →
      modeIsDir e2.mode = modeIsDir e.mode →
      ∀ r', r.AddMutated e = Except.ok r' →
        ∃ msg, r'.AddMutated e2 = Except.error msg) ∧
    (∀ (r0 : Report) (e0 : FsEntry) (rp0 : String),
      r0.relativePath e0.path (modeIsDir e0.mode) = Except.ok rp0 →
      lookupA r0.entries rp0 = none →
      ∃ msg, r0.AddMutated e0 = Except.error msg) := by
  have hupd : entry.mutated = false →
      r.AddMutated e = Except.ok
        (r.withEntries (insertA r.entries relPath (entry.mutatedWith e))) := by
    intro hm
    simp only [Report.AddMutated, hrel, hent]
    rw [if_neg (by simp [hm])]
    rfl
  refine ⟨?_, ?_, ?_, ?_⟩
  · intro hm
    refine ⟨entry.mutatedWith e, hupd hm, rfl, rfl, rfl, rfl, rfl, rfl, rfl,
      rfl, ?_⟩
    intro p hp
    exact lookupA_insertA_ne _ _ _ _ fun h => hp h.symm
  · intro hm
    exact ⟨_, by
      simp only [Report.AddMutated, hrel, hent]
      rw [if_pos hm]⟩
  · intro hm e2 hpath hdir r' hr'
    rw [hupd hm, Except.ok.injEq] at hr'
    subst hr'
    have hrel2 : Report.relativePath
        (r.withEntries (insertA r.entries relPath (entry.mutatedWith e)))
        e2.path (modeIsDir e2.mode) = Except.ok relPath := by
      rw [hpath, hdir]
      exact hrel
    refine ⟨"path " ++ relPath ++ " has been mutated once before", ?_⟩
    simp only [Report.AddMutated, hrel2]
    simp only [Report.withEntries, lookupA_insertA_self, ReportEntry.mutatedWith]
    rw [if_pos trivial]
  · intro r0 e0 rp0 hrel0 hnone
    refine ⟨"path " ++ rp0 ++ " has not been added before", ?_⟩
    simp only [Report.AddMutated, hrel0, hnone]

/-- Witness for C8: mutating the unmutated `/x` entry of `reportOne`
succeeds and updates only size, final hash and the flag. -/
theorem c8_add_mutated_witness :
    ∃ entry', reportOne.AddMutated
        ({ path := "/root/x", mode := 420, hash := "h2", size := 9, link := "" }) =
        Except.ok (reportOne.withEntries
          (insertA reportOne.entries ("/x") entry')) ∧
      entry'.path = "/x" ∧ entry'.mode = 420 ∧ entry'.hash = "h1" ∧
      entry'.link = "" ∧ entry'.slices = ["mypkg_myslice"] ∧
      entry'.mutated = true ∧ entry'.finalHash = "h2" ∧ entry'.size = 9 ∧
      ∀ p, p ≠ "/x" →
        lookupA (insertA reportOne.entries ("/x") entry') p =
          lookupA reportOne.entries p :=
  (c8_add_mutated reportOne
      ({ path := "/root/x", mode := 420, hash := "h2", size := 9, link := "" })
      ("/x") entryX (by rfl) (by rfl)).1 rfl

/-! ## C9 — name patterns and slice references -/
/-- Every character consumed by `countReps` is a hyphen or a class
character. -/
theorem countReps_chars {cls : Char → Bool} :
    ∀ (l : List Char) {n : Nat}, countReps cls l = some n →
      ∀ c ∈ l, c = '-' ∨ cls c = true := by
  have key : ∀ (k : Nat) (l : List Char), l.length ≤ k → ∀ {n : Nat},
      countReps cls l = some n → ∀ c ∈ l, c = '-' ∨ cls c = true := by
    intro k
    induction k with
    | zero =>
      intro l hl n h c hc
      cases l with
      | nil => cases hc
      | cons x xs =>
        rw [List.length_cons] at hl
        omega
    | succ k ih =>
      intro l hl n h c hc
      cases l with
      | nil => cases hc
      | cons x xs =>
        unfold countReps at h
        by_cases hx : x = '-'
        · rw [if_pos hx] at h
          cases xs with
          | nil => cases h
          | cons d rest =>
            dsimp only at h
            by_cases hd : cls d = true
            · rw [if_pos hd] at h
              cases hm : countReps cls rest with
              | none =>
                rw [hm] at h
                cases h
              | some m =>
                rcases List.mem_cons.mp hc with hc1 | hc1
                · left
                  rw [hc1]
                  exact hx
                · rcases List.mem_cons.mp hc1 with hc2 | hc2
                  · right
                    rw [hc2]
                    exact hd
                  · refine ih rest ?_ hm c hc2
                    simp only [List.length_cons] at hl
                    omega
            · rw [if_neg hd] at h
              cases h
        · rw [if_neg hx] at h
          by_cases hcx : cls x = true
          · rw [if_pos hcx] at h
            rcases List.mem_cons.mp hc with hc1 | hc1
            · right
              rw [hc1]
              exact hcx
            · cases hm : countReps cls xs with
              | none =>
                rw [hm] at h
                cases h
              | some m =>
                refine ih xs ?_ hm c hc1
                simp only [List.length_cons] at hl
                omega
          · rw [if_neg hcx] at h
            cases h
  intro l n h c hc
  exact key l.length l le_rfl h c hc

/-- Package names contain no underscore. -/
theorem pkgNameChars_no_underscore {p : List Char}
    (h : pkgNameChars p = true) : '_' ∉ p := by
  cases p with
  | nil => cases h
  | cons c rest =>
    simp only [pkgNameChars, Bool.and_eq_true] at h
    obtain ⟨h1, h2⟩ := h
    intro hmem
    rcases List.mem_cons.mp hmem with hmem | hmem
    · rw [← hmem] at h1
      exact absurd h1 (by decide)
    · cases hm : countReps isPkgClass rest with
      | none =>
        rw [hm] at h2
        cases h2
      | some nn =>
        rcases countReps_chars rest hm '_' hmem with h' | h'
        · exact absurd h' (by decide)
        · exact absurd h' (by decide)

/-- `splitUnder` on a list whose prefix has no underscore splits at the
separator. -/
theorem splitUnder_append {p : List Char} (n : List Char)
    (hp : '_' ∉ p) : splitUnder (p ++ '_' :: n) = some (p, n) := by
  induction p with
  | nil => rfl
  | cons c cs ih =>
    have hc : c ≠ '_' := fun h => hp (h ▸ List.mem_cons_self c cs)
    have hcs : '_' ∉ cs := fun h => hp (List.mem_cons_of_mem c h)
    simp only [List.cons_append, splitUnder, List.append_eq]
    rw [if_neg hc, ih hcs]

/-- `splitUnder` recovers the original list. -/
theorem splitUnder_sound :
    ∀ {l a b : List Char}, splitUnder l = some (a, b) → l = a ++ '_' :: b := by
  intro l
  induction l with
  | nil =>
    intro a b h
    cases h
  | cons c cs ih =>
    intro a b h
    simp only [splitUnder] at h
    by_cases hc : c = '_'
    · rw [if_pos hc] at h
      injection h with h
      rw [Prod.mk.injEq] at h
      rw [← h.1, ← h.2, hc]
      rfl
    · rw [if_neg hc] at h
      cases hsplit : splitUnder cs with
      | none =>
        rw [hsplit] at h
        cases h
      | some pn =>
        rw [hsplit] at h
        obtain ⟨pa, pb⟩ := pn
        injection h with h
        rw [Prod.mk.injEq] at h
        obtain ⟨ha, hb⟩ := h
        rw [← ha, ← hb]
        simp [ih hsplit]

/-- C9 counterexample: the spec's patterns and the code's regular
expressions disagree: `ab` matches the spec's slice-name pattern
`[a-z]([-a-z0-9])+` but is rejected by `snameExp` (which demands at least
two repetitions), and `a-` matches the spec's package-name pattern
`[a-z0-9]([-.a-z0-9+])+` but is rejected by `fnameExp`'s stem pattern
(no trailing hyphen). -/
theorem c9_counterexample :
    specSliceName (String.data ("ab")) = true ∧
    snameChars (String.data ("ab")) = false ∧
    specPkgName (String.data ("a-")) = true ∧
    pkgNameChars (String.data ("a-")) = false ∧
    fnameMatch ("a-.yaml") = false ∧
    (ParseSliceKey ("mypkg_ab")).isOk = false := by
  refine ⟨by decide, by decide, by decide, by decide, by decide, by decide⟩

/-- C9 (amended): slice definition file names accepted by the loader are
exactly `<stem>.yaml` with the stem matching `[a-z0-9](-?[.a-z0-9+]){1,}`
(`fnameExp`); slice names match `[a-z](-?[a-z0-9]){2,}` (`snameExp`); and
a slice reference parses iff it is `<pkg>_<slice>` with the two parts
matching those patterns (`knameExp`). -/
theorem c9_amended :
    (∀ p n : String, pkgNameChars p.data = true → snameChars n.data = true →
      ParseSliceKey (p ++ "_" ++ n) = Except.ok ⟨p, n⟩) ∧
    (∀ (s : String) (k : SliceKey), ParseSliceKey s = Except.ok k →
      s = k.package ++ "_" ++ k.slice ∧ pkgNameChars k.package.data = true ∧
        snameChars k.slice.data = true) ∧
    (∀ p : String, fnameMatch (p ++ ".yaml") = pkgNameChars p.data) ∧
    (∀ s : String, fnameMatch s = true →
      ∃ p : String, s = p ++ ".yaml" ∧ pkgNameChars p.data = true) := by
  refine ⟨?_, ?_, ?_, ?_⟩
  · intro p n hp hn
    have hdata : (p ++ "_" ++ n).data = p.data ++ '_' :: n.data := by
      simp [String.data_append]
    unfold ParseSliceKey
    rw [hdata, splitUnder_append n.data (pkgNameChars_no_underscore hp)]
    simp [hp, hn]
  · intro s k h
    unfold ParseSliceKey at h
    cases hsplit : splitUnder s.data with
    | none =>
      rw [hsplit] at h
      cases h
    | some pn =>
      obtain ⟨pa, pb⟩ := pn
      rw [hsplit] at h
      dsimp only at h
      by_cases hcond : (pkgNameChars pa && snameChars pb) = true
      · rw [if_pos hcond] at h
        injection h with h
        subst h
        have hs : s.data = pa ++ '_' :: pb := splitUnder_sound hsplit
        rw [Bool.and_eq_true] at hcond
        refine ⟨?_, hcond.1, hcond.2⟩
        apply String.ext
        simp [String.data_append, hs]
      · rw [if_neg hcond] at h
        cases h
  · intro p
    have hdata : (p ++ ".yaml").data = p.data ++ String.data (".yaml") := by
      simp [String.data_append]
    have hy : (String.data (".yaml")).length = 5 := rfl
    unfold fnameMatch
    rw [hdata]
    have hlen : (p.data ++ String.data (".yaml")).length = p.data.length + 5 := by
      rw [List.length_append, hy]
    rw [hlen]
    have h5 : p.data.length + 5 - 5 = p.data.length := by omega
    rw [h5]
    rw [List.drop_left, List.take_left]
    simp
  · intro s hs
    unfold fnameMatch at hs
    simp only [Bool.and_eq_true, decide_eq_true_eq] at hs
    obtain ⟨⟨h5, hdrop⟩, hpkg⟩ := hs
    refine ⟨String.mk (s.data.take (s.data.length - 5)), ?_, hpkg⟩
    apply String.ext
    rw [String.data_append]
    show s.data = s.data.take (s.data.length - 5) ++ String.data (".yaml")
    rw [show String.data (".yaml") = ['.', 'y', 'a', 'm', 'l'] from rfl, ← hdrop]
    exact (List.take_append_drop _ _).symm

/-! ## C10 — `until` and `arch` never cause conflicts -/
/-- `SameContent` is reflexive. -/
theorem sameContent_refl (p : PathInfo) : PathInfo.SameContent p p = true := by
  simp [PathInfo.SameContent]

/-- Changing only `until`/`arch` keeps the content equal (five-field
variant). -/
theorem sameContent_until_arch (p : PathInfo) (u : PathUntil)
    (a : List String) :
    PathInfo.SameContent { p with untilK := u, arch := a } p = true := by
  simp [PathInfo.SameContent]

/-- Changing only `until`/`arch` keeps the content equal (prefer
variant). -/
theorem sameContentPrefer_until_arch (p : PathInfo) (u : PathUntil)
    (a : List String) :
    PathInfo.SameContentPreferVariant { p with untilK := u, arch := a } p = true := by
  simp [PathInfo.SameContentPreferVariant]

/-- C10: neither `SameContent` variant reads the `Until` or `Arch`
fields (the prefer variant additionally compares `Prefer`, nothing else),
and two slices of one package declaring a path that differs only in
`until`/`arch` pass the same-package conflict check under either
variant. -/
theorem c10_until_arch_ignored :
    (∀ (p q : PathInfo) (u1 u2 : PathUntil) (a1 a2 : List String),
      PathInfo.SameContent { p with untilK := u1, arch := a1 }
        { q with untilK := u2, arch := a2 } = PathInfo.SameContent p q) ∧
    (∀ (p q : PathInfo) (u1 u2 : PathUntil) (a1 a2 : List String),
      PathInfo.SameContentPreferVariant { p with untilK := u1, arch := a1 }
        { q with untilK := u2, arch := a2 } =
        PathInfo.SameContentPreferVariant p q) ∧
    (∀ p q : PathInfo, PathInfo.SameContentPreferVariant p q =
      (PathInfo.SameContent p q && decide (p.prefer = q.prefer))) ∧
    (∀ (path : String) (p : PathInfo) (u : PathUntil) (a : List String),
      checkSamePkgConflict PathInfo.SameContent path
        [("pkg-a_slice1", p), ("pkg-a_slice2", { p with untilK := u, arch := a })] =
        Except.ok [("pkg-a", "pkg-a_slice1")]) ∧
    (∀ (path : String) (p : PathInfo) (u : PathUntil) (a : List String),
      checkSamePkgConflict PathInfo.SameContentPreferVariant path
        [("pkg-a_slice1", p), ("pkg-a_slice2", { p with untilK := u, arch := a })] =
        Except.ok [("pkg-a", "pkg-a_slice1")]) := by
  refine ⟨fun p q u1 u2 a1 a2 => rfl, fun p q u1 u2 a1 a2 => rfl,
    fun p q => rfl, ?_, ?_⟩
  · intro path p u a
    have h1 : ParseSliceKey ("pkg-a_slice1") = Except.ok ⟨"pkg-a", "slice1"⟩ := rfl
    have h2 : ParseSliceKey ("pkg-a_slice2") = Except.ok ⟨"pkg-a", "slice2"⟩ := rfl
    simp only [checkSamePkgConflict, cspcLoop, h1, h2, lookupA, insertA]
    simp [sameContent_until_arch, strLtB, listLt]
  · intro path p u a
    have h1 : ParseSliceKey ("pkg-a_slice1") = Except.ok ⟨"pkg-a", "slice1"⟩ := rfl
    have h2 : ParseSliceKey ("pkg-a_slice2") = Except.ok ⟨"pkg-a", "slice2"⟩ := rfl
    simp only [checkSamePkgConflict, cspcLoop, h1, h2, lookupA, insertA]
    simp [sameContentPrefer_until_arch, strLtB, listLt]

theorem mem_of_lookupA_eq_some {α : Type} {m : List (String × α)} {k : String}
    {v : α} (h : lookupA m k = some v) : (k, v) ∈ m := by
  induction m with
  | nil => cases h
  | cons hd tl ih =>
    obtain ⟨k', v'⟩ := hd
    by_cases hk : k' = k
    · subst hk
      simp only [lookupA, if_pos rfl] at h
      injection h with h
      simp [h]
    · simp only [lookupA, hk, if_false] at h
      exact List.mem_cons_of_mem _ (ih h)

theorem lookupA_eq_some_of_mem_nodup {α : Type} {m : List (String × α)}
    {k : String} {v : α} (hmem : (k, v) ∈ m)
    (hnd : (m.map Prod.fst).Nodup) : lookupA m k = some v := by
  induction m with
  | nil => cases hmem
  | cons hd tl ih =>
    obtain ⟨k', v'⟩ := hd
    rcases List.mem_cons.mp hmem with hmem | hmem
    · injection hmem with h1 h2
      subst h1
      subst h2
      simp [lookupA]
    · have hk : k' ≠ k := by
        intro hk
        subst hk
        have : k' ∈ tl.map Prod.fst :=
          List.mem_map_of_mem Prod.fst hmem
        exact (List.nodup_cons.mp hnd).1 this
      simp only [lookupA, hk, if_false]
      exact ih hmem (List.nodup_cons.mp hnd).2

theorem isSome_lookupA_of_mem {α : Type} {m : List (String × α)} {k : String}
    {v : α} (hmem : (k, v) ∈ m) : (lookupA m k).isSome = true := by
  induction m with
  | nil => cases hmem
  | cons hd tl ih =>
    obtain ⟨k', v'⟩ := hd
    by_cases hk : k' = k
    · simp [lookupA, hk]
    · rcases List.mem_cons.mp hmem with hmem | hmem
      · injection hmem with h1 h2
        exact absurd h1.symm hk
      · simp only [lookupA, hk, if_false]
        exact ih hmem

/-- Distinct strings have distinct character data. -/
theorem data_ne_of_ne {a b : String} (h : a ≠ b) : a.data ≠ b.data :=
  fun hd => h (String.ext hd)

/-- On distinct strings one strict comparison holds. -/
theorem strLtB_of_not_strLtB {a b : String} (hne : a ≠ b)
    (h : strLtB a b = false) : strLtB b a = true := by
  by_contra hba
  rw [Bool.not_eq_true] at hba
  exact data_ne_of_ne hne (listLt_conn h hba)

theorem cspcLoop_spec (same : PathInfo → PathInfo → Bool)
    (hrefl : ∀ a, same a a = true)
    (hsym : ∀ a b, same a b = same b a)
    (htrans : ∀ a b c, same a b = true → same b c = true → same a c = true)
    (path : String) (infos : List (String × PathInfo))
    (hnd : (infos.map Prod.fst).Nodup) :
    ∀ (todo processed : List (String × PathInfo))
      (pkgSlice : List (String × String)),
      infos = processed ++ todo →
      (∀ s ∈ todo.map Prod.fst, (ParseSliceKey s).isOk = true) →
      cspcInv same infos processed pkgSlice →
      (∀ out, cspcLoop same path infos todo pkgSlice = Except.ok out →
        ∀ s i t j, (s, i) ∈ infos → (t, j) ∈ infos → s ≠ t →
          pkgOf s = pkgOf t → same i j = true) ∧
      (∀ m, cspcLoop same path infos todo pkgSlice ≠
        Except.error (ConflictErr.invalidKey m)) ∧
      (∀ a b p', cspcLoop same path infos todo pkgSlice =
          Except.error (ConflictErr.conflictPair a b p') →
        p' = path ∧ strLtB a b = true ∧
        ∃ i j, (a, i) ∈ infos ∧ (b, j) ∈ infos ∧ a ≠ b ∧
          pkgOf a = pkgOf b ∧ same i j = false) := by
  intro todo
  induction todo with
  | nil =>
    intro processed pkgSlice happ hkeys hinv
    refine ⟨?_, ?_, ?_⟩
    · intro out hout s i t j hs ht hst hpk
      have hproc : processed = infos := by
        rw [happ, List.append_nil]
      rw [← hproc] at hs ht
      have hinvpk := hinv (pkgOf s)
      cases hrep : lookupA pkgSlice (pkgOf s) with
      | none =>
        rw [hrep] at hinvpk
        exact absurd rfl (hinvpk s (List.mem_map_of_mem Prod.fst hs))
      | some sl =>
        rw [hrep] at hinvpk
        obtain ⟨_, _, h3⟩ := hinvpk
        have hi := h3 s i hs rfl
        have hj := h3 t j ht hpk.symm
        rw [hsym] at hj
        exact htrans i _ j hi hj
    · intro m h
      cases h
    · intro a b p' h
      cases h
  | cons hd todo' ih =>
    obtain ⟨newSlice, newInfo⟩ := hd
    intro processed pkgSlice happ hkeys hinv
    have hknew : (ParseSliceKey newSlice).isOk = true := by
      apply hkeys
      simp
    obtain ⟨key, hp⟩ : ∃ key, ParseSliceKey newSlice = Except.ok key := by
      cases hparse : ParseSliceKey newSlice with
      | ok k => exact ⟨k, rfl⟩
      | error e =>
        rw [hparse] at hknew
        cases hknew
    have hpkgOf : pkgOf newSlice = key.package := by
      simp [pkgOf, hp]
    have hmemnew : (newSlice, newInfo) ∈ infos := by
      rw [happ]
      simp
    have hnotproc : newSlice ∉ processed.map Prod.fst := by
      have := hnd
      rw [happ, List.map_append, List.nodup_append] at this
      intro hmem
      exact this.2.2 hmem (by simp)
    have hinfoOfNew : lookupA infos newSlice = some newInfo :=
      lookupA_eq_some_of_mem_nodup hmemnew hnd
    have happ' : infos = (processed ++ [(newSlice, newInfo)]) ++ todo' := by
      rw [happ]
      simp
    have hkeys' : ∀ s ∈ todo'.map Prod.fst, (ParseSliceKey s).isOk = true := by
      intro sx hx
      apply hkeys
      simp [hx]
    have hstep : ∀ res, cspcLoop same path infos
        ((newSlice, newInfo) :: todo') pkgSlice = res ↔
        (match lookupA pkgSlice key.package with
         | none => cspcLoop same path infos todo'
             (insertA pkgSlice key.package newSlice)
         | some oldSlice =>
           if same newInfo ((lookupA infos oldSlice).getD PathInfo.zero) = false then
             Except.error (ConflictErr.conflictPair
               (if strLtB newSlice oldSlice then (newSlice, oldSlice)
                else (oldSlice, newSlice)).1
               (if strLtB newSlice oldSlice then (newSlice, oldSlice)
                else (oldSlice, newSlice)).2 path)
           else
             cspcLoop same path infos todo'
               (if strLtB newSlice oldSlice then
                  insertA pkgSlice key.package newSlice
                else pkgSlice)) = res := by
      intro res
      rw [cspcLoop, hp]
    cases hrep : lookupA pkgSlice key.package with
    | none =>
      have heq : cspcLoop same path infos ((newSlice, newInfo) :: todo') pkgSlice =
          cspcLoop same path infos todo' (insertA pkgSlice key.package newSlice) := by
        rw [hstep]
        rw [hrep]
      rw [heq]
      apply ih (processed ++ [(newSlice, newInfo)])
        (insertA pkgSlice key.package newSlice) happ' hkeys'
      -- re-establish the invariant
      intro pk
      by_cases hpk : pk = key.package
      · subst hpk
        rw [lookupA_insertA_self]
        refine ⟨by simp, hpkgOf, ?_⟩
        intro t jt ht hpkt
        rcases List.mem_append.mp ht with ht | ht
        · have := hinv key.package
          rw [hrep] at this
          exact absurd hpkt (this t (List.mem_map_of_mem Prod.fst ht))
        · simp only [List.mem_singleton] at ht
          injection ht with h1 h2
          rw [h2, hinfoOfNew]
          exact hrefl newInfo
      · rw [lookupA_insertA_ne _ _ _ _ fun h => hpk h.symm]
        have hinvpk := hinv pk
        cases hrep2 : lookupA pkgSlice pk with
        | none =>
          rw [hrep2] at hinvpk
          intro t ht
          rcases List.mem_map.mp ht with ⟨⟨t1, t2⟩, hmem, hfst⟩
          rcases List.mem_append.mp hmem with hmem | hmem
          · have ht1 : t1 = t := hfst
            exact ht1 ▸ hinvpk t1 (List.mem_map_of_mem Prod.fst hmem)
          · simp only [List.mem_singleton] at hmem
            injection hmem with h1 h2
            have ht2 : t = newSlice := by rw [← hfst, h1]
            rw [ht2, hpkgOf]
            exact fun h => hpk h.symm
        | some sl =>
          rw [hrep2] at hinvpk
          obtain ⟨h1, h2, h3⟩ := hinvpk
          refine ⟨by simp [h1], h2, ?_⟩
          intro t jt ht hpkt
          rcases List.mem_append.mp ht with ht | ht
          · exact h3 t jt ht hpkt
          · simp only [List.mem_singleton] at ht
            injection ht with ha hb
            rw [ha, hpkgOf] at hpkt
            exact absurd hpkt.symm hpk
    | some oldSlice =>
      have hinvkey := hinv key.package
      rw [hrep] at hinvkey
      obtain ⟨hOldProc, hOldPkg, hOldSame⟩ := hinvkey
      obtain ⟨oldInfo, hOldMemProc⟩ : ∃ v, (oldSlice, v) ∈ processed := by
        rcases List.mem_map.mp hOldProc with ⟨⟨a1, a2⟩, hmem, hfst⟩
        have ha1 : a1 = oldSlice := hfst
        exact ⟨a2, ha1 ▸ hmem⟩
      have hOldMem : (oldSlice, oldInfo) ∈ infos := by
        rw [happ]
        exact List.mem_append_left _ hOldMemProc
      have hOldLookup : lookupA infos oldSlice = some oldInfo :=
        lookupA_eq_some_of_mem_nodup hOldMem hnd
      have hOldNe : oldSlice ≠ newSlice := by
        intro h
        rw [h] at hOldProc
        exact hnotproc hOldProc
      by_cases hsc : same newInfo oldInfo = false
      · have heq : cspcLoop same path infos ((newSlice, newInfo) :: todo') pkgSlice =
            Except.error (ConflictErr.conflictPair
              (if strLtB newSlice oldSlice then (newSlice, oldSlice)
               else (oldSlice, newSlice)).1
              (if strLtB newSlice oldSlice then (newSlice, oldSlice)
               else (oldSlice, newSlice)).2 path) := by
          rw [hstep]
          rw [hrep]
          dsimp only
          rw [hOldLookup]
          dsimp only [Option.getD]
          rw [if_pos hsc]
        rw [heq]
        refine ⟨?_, ?_, ?_⟩
        · intro out hout
          cases hout
        · intro m h
          simp at h
        · intro a b p' h
          rw [Except.error.injEq, ConflictErr.conflictPair.injEq] at h
          obtain ⟨ha, hb, hpth⟩ := h
          by_cases hlt : strLtB newSlice oldSlice = true
          · rw [if_pos hlt] at ha hb
            dsimp only at ha hb
            subst ha
            subst hb
            refine ⟨hpth.symm, hlt, newInfo, oldInfo, hmemnew, hOldMem,
              fun h => hOldNe h.symm, by rw [hpkgOf, hOldPkg], hsc⟩
          · rw [if_neg hlt] at ha hb
            dsimp only at ha hb
            subst ha
            subst hb
            rw [Bool.not_eq_true] at hlt
            refine ⟨hpth.symm, strLtB_of_not_strLtB (fun h => hOldNe h.symm) hlt,
              oldInfo, newInfo, hOldMem, hmemnew, hOldNe,
              by rw [hpkgOf, hOldPkg], by rw [hsym]; exact hsc⟩
      · rw [Bool.not_eq_false] at hsc
        have heq : cspcLoop same path infos ((newSlice, newInfo) :: todo') pkgSlice =
            cspcLoop same path infos todo'
              (if strLtB newSlice oldSlice then
                insertA pkgSlice key.package newSlice
              else pkgSlice) := by
          rw [hstep]
          rw [hrep]
          dsimp only
          rw [hOldLookup]
          dsimp only [Option.getD]
          rw [if_neg (by simp [hsc])]
        rw [heq]
        by_cases hlt : strLtB newSlice oldSlice = true
        · rw [if_pos hlt]
          apply ih (processed ++ [(newSlice, newInfo)])
            (insertA pkgSlice key.package newSlice) happ' hkeys'
          intro pk
          by_cases hpk : pk = key.package
          · subst hpk
            rw [lookupA_insertA_self]
            refine ⟨by simp, hpkgOf, ?_⟩
            intro t jt ht hpkt
            rw [hinfoOfNew]
            dsimp only [Option.getD]
            rcases List.mem_append.mp ht with ht | ht
            · have hjt := hOldSame t jt ht hpkt
              rw [hOldLookup] at hjt
              dsimp only [Option.getD] at hjt
              have hon : same oldInfo newInfo = true := by
                rw [hsym]
                exact hsc
              exact htrans jt oldInfo newInfo hjt hon
            · simp only [List.mem_singleton] at ht
              injection ht with h1 h2
              rw [h2]
              exact hrefl newInfo
          · rw [lookupA_insertA_ne _ _ _ _ fun h => hpk h.symm]
            have hinvpk := hinv pk
            cases hrep2 : lookupA pkgSlice pk with
            | none =>
              rw [hrep2] at hinvpk
              intro t ht
              rcases List.mem_map.mp ht with ⟨⟨t1, t2⟩, hmem, hfst⟩
              rcases List.mem_append.mp hmem with hmem | hmem
              · have ht1 : t1 = t := hfst
                exact ht1 ▸ hinvpk t1 (List.mem_map_of_mem Prod.fst hmem)
              · simp only [List.mem_singleton] at hmem
                injection hmem with h1 h2
                have ht2 : t = newSlice := by rw [← hfst, h1]
                rw [ht2, hpkgOf]
                exact fun h => hpk h.symm
            | some sl =>
              rw [hrep2] at hinvpk
              obtain ⟨h1, h2, h3⟩ := hinvpk
              refine ⟨by simp [h1], h2, ?_⟩
              intro t jt ht hpkt
              rcases List.mem_append.mp ht with ht | ht
              · exact h3 t jt ht hpkt
              · simp only [List.mem_singleton] at ht
                injection ht with ha hb
                subst ha
                rw [hpkgOf] at hpkt
                exact absurd hpkt.symm hpk
        · rw [if_neg hlt]
          apply ih (processed ++ [(newSlice, newInfo)]) pkgSlice happ' hkeys'
          intro pk
          have hinvpk := hinv pk
          cases hrep2 : lookupA pkgSlice pk with
          | none =>
            rw [hrep2] at hinvpk
            intro t ht
            rcases List.mem_map.mp ht with ⟨⟨t1, t2⟩, hmem, hfst⟩
            rcases List.mem_append.mp hmem with hmem | hmem
            · have ht1 : t1 = t := hfst
              exact ht1 ▸ hinvpk t1 (List.mem_map_of_mem Prod.fst hmem)
            · simp only [List.mem_singleton] at hmem
              injection hmem with h1 h2
              have ht2 : t = newSlice := by rw [← hfst, h1]
              rw [ht2, hpkgOf]
              intro hJ
              rw [← hJ] at hrep2
              rw [hrep2] at hrep
              cases hrep
          | some sl =>
            rw [hrep2] at hinvpk
            obtain ⟨h1, h2, h3⟩ := hinvpk
            refine ⟨by simp [h1], h2, ?_⟩
            intro t jt ht hpkt
            rcases List.mem_append.mp ht with ht | ht
            · exact h3 t jt ht hpkt
            · simp only [List.mem_singleton] at ht
              injection ht with ha hb
              rw [ha, hpkgOf] at hpkt
              rw [← hpkt] at hrep2
              rw [hrep2] at hrep
              injection hrep with hsl
              rw [hb, hsl, hOldLookup]
              exact hsc

/-- `SameContent` holds exactly when the five compared fields agree. -/
theorem sameContent_eq_true_iff (a b : PathInfo) :
    PathInfo.SameContent a b = true ↔
      (a.kind = b.kind ∧ a.info = b.info ∧ a.mode = b.mode ∧
       a.mutable = b.mutable ∧ a.generate = b.generate) := by
  simp [PathInfo.SameContent, and_assoc]

/-- `SameContent` is symmetric. -/
theorem sameContent_symm (a b : PathInfo) :
    PathInfo.SameContent a b = PathInfo.SameContent b a := by
  cases hab : PathInfo.SameContent a b <;> cases hba : PathInfo.SameContent b a
  · rfl
  · rw [sameContent_eq_true_iff] at hba
    obtain ⟨h1, h2, h3, h4, h5⟩ := hba
    have : PathInfo.SameContent a b = true :=
      (sameContent_eq_true_iff a b).mpr ⟨h1.symm, h2.symm, h3.symm, h4.symm, h5.symm⟩
    rw [hab] at this
    cases this
  · rw [sameContent_eq_true_iff] at hab
    obtain ⟨h1, h2, h3, h4, h5⟩ := hab
    have : PathInfo.SameContent b a = true :=
      (sameContent_eq_true_iff b a).mpr ⟨h1.symm, h2.symm, h3.symm, h4.symm, h5.symm⟩
    rw [hba] at this
    cases this
  · rfl

/-- `SameContent` is transitive. -/
theorem sameContent_trans (a b c : PathInfo)
    (h1 : PathInfo.SameContent a b = true)
    (h2 : PathInfo.SameContent b c = true) :
    PathInfo.SameContent a c = true := by
  rw [sameContent_eq_true_iff] at h1 h2 ⊢
  obtain ⟨k1, i1, m1, u1, g1⟩ := h1
  obtain ⟨k2, i2, m2, u2, g2⟩ := h2
  exact ⟨k1.trans k2, i1.trans i2, m1.trans m2, u1.trans u2, g1.trans g2⟩

/-- `SameContentPreferVariant` holds exactly when the six compared fields
agree. -/
theorem sameContentPrefer_eq_true_iff (a b : PathInfo) :
    PathInfo.SameContentPreferVariant a b = true ↔
      (a.kind = b.kind ∧ a.info = b.info ∧ a.mode = b.mode ∧
       a.mutable = b.mutable ∧ a.generate = b.generate ∧ a.prefer = b.prefer) := by
  simp [PathInfo.SameContentPreferVariant, and_assoc]

/-- `SameContentPreferVariant` is reflexive. -/
theorem sameContentPrefer_refl (p : PathInfo) :
    PathInfo.SameContentPreferVariant p p = true := by
  simp [PathInfo.SameContentPreferVariant]

/-- `SameContentPreferVariant` is symmetric. -/
theorem sameContentPrefer_symm (a b : PathInfo) :
    PathInfo.SameContentPreferVariant a b = PathInfo.SameContentPreferVariant b a := by
  cases hab : PathInfo.SameContentPreferVariant a b <;>
    cases hba : PathInfo.SameContentPreferVariant b a
  · rfl
  · rw [sameContentPrefer_eq_true_iff] at hba
    obtain ⟨h1, h2, h3, h4, h5, h6⟩ := hba
    have : PathInfo.SameContentPreferVariant a b = true :=
      (sameContentPrefer_eq_true_iff a b).mpr
        ⟨h1.symm, h2.symm, h3.symm, h4.symm, h5.symm, h6.symm⟩
    rw [hab] at this
    cases this
  · rw [sameContentPrefer_eq_true_iff] at hab
    obtain ⟨h1, h2, h3, h4, h5, h6⟩ := hab
    have : PathInfo.SameContentPreferVariant b a = true :=
      (sameContentPrefer_eq_true_iff b a).mpr
        ⟨h1.symm, h2.symm, h3.symm, h4.symm, h5.symm, h6.symm⟩
    rw [hba] at this
    cases this
  · rfl

/-- `SameContentPreferVariant` is transitive. -/
theorem sameContentPrefer_trans (a b c : PathInfo)
    (h1 : PathInfo.SameContentPreferVariant a b = true)
    (h2 : PathInfo.SameContentPreferVariant b c = true) :
    PathInfo.SameContentPreferVariant a c = true := by
  rw [sameContentPrefer_eq_true_iff] at h1 h2 ⊢
  obtain ⟨k1, i1, m1, u1, g1, p1⟩ := h1
  obtain ⟨k2, i2, m2, u2, g2, p2⟩ := h2
  exact ⟨k1.trans k2, i1.trans i2, m1.trans m2, u1.trans u2, g1.trans g2,
    p1.trans p2⟩

/-- C4 counterexample: on the staged fixture "Different prefer from same
package" — two slices of `pkg-a` declaring the path with `PathInfo`s that
agree on all of kind, info, mode, mutable and generate and differ only in
`prefer` — the same-package conflict check of the running code (whose
`SameContent` also compares `Prefer`) reports the conflict error naming the
two slices, so the conflict is not restricted to differences in the five
claimed fields. -/
theorem c4_counterexample :
    PathInfo.SameContent c4preferB c4preferC = true ∧
    c4preferB.prefer ≠ c4preferC.prefer ∧
    checkSamePkgConflict PathInfo.SameContentPreferVariant "/etc/app.cfg"
      c4preferInfos =
      Except.error (ConflictErr.conflictPair ("pkg-a_slice1") ("pkg-a_slice2")
        ("/etc/app.cfg")) := by
  refine ⟨by decide, by decide, by rfl⟩

/-- C4 (amended): `Conflict.checkSamePkgConflict` with the prefer-comparing
`SameContent` returns a `slices A and B conflict on PATH` error iff two
distinct slices of the same package declare the path with `PathInfo`
differing in kind, info, mode, mutable, generate or prefer; when it does,
the reported pair is in lexicographically smallest order and cites the
conflicting path. -/
theorem c4_amended (path : String) (infos : List (String × PathInfo))
    (hnd : (infos.map Prod.fst).Nodup)
    (hkeys : ∀ s ∈ infos.map Prod.fst, (ParseSliceKey s).isOk = true) :
    ((∃ a b, checkSamePkgConflict PathInfo.SameContentPreferVariant path infos =
        Except.error (ConflictErr.conflictPair a b path)) ↔
      ∃ s i t j, (s, i) ∈ infos ∧ (t, j) ∈ infos ∧ s ≠ t ∧
        pkgOf s = pkgOf t ∧ PathInfo.SameContentPreferVariant i j = false) ∧
    ∀ a b p', checkSamePkgConflict PathInfo.SameContentPreferVariant path infos =
        Except.error (ConflictErr.conflictPair a b p') →
      p' = path ∧ strLtB a b = true := by
  have hinv0 : cspcInv PathInfo.SameContentPreferVariant infos [] [] := by
    intro pk
    intro t ht
    cases ht
  have hspec := cspcLoop_spec PathInfo.SameContentPreferVariant
    sameContentPrefer_refl sameContentPrefer_symm sameContentPrefer_trans
    path infos hnd infos [] [] (List.nil_append infos).symm hkeys hinv0
  obtain ⟨hok, hnokey, hconf⟩ := hspec
  simp only [checkSamePkgConflict]
  refine ⟨⟨?_, ?_⟩, ?_⟩
  · rintro ⟨a, b, h⟩
    obtain ⟨_, _, i, j, hai, hbj, hne, hpk, hsf⟩ := hconf a b path h
    exact ⟨a, i, b, j, hai, hbj, hne, hpk, hsf⟩
  · rintro ⟨s, i, t, j, hs, ht, hst, hpk, hsf⟩
    cases hres : cspcLoop PathInfo.SameContentPreferVariant path infos infos [] with
    | ok out =>
      have := hok out hres s i t j hs ht hst hpk
      rw [this] at hsf
      cases hsf
    | error e =>
      cases e with
      | invalidKey m => exact absurd hres (hnokey m)
      | conflictPair a b p' =>
        obtain ⟨hp, _, _⟩ := hconf a b p' hres
        exact ⟨a, b, by rw [hp]⟩
  · intro a b p' h
    obtain ⟨hp, hlt, _⟩ := hconf a b p' h
    exact ⟨hp, hlt⟩

/-- Witness for C4 (amended): the mode-differing two-slice fixture of
`pkg-a` (the staged "Conflict within same package" case) produces a
conflict error on the path. -/
theorem c4_amended_witness :
    ∃ a b, checkSamePkgConflict PathInfo.SameContentPreferVariant
        "/usr/bin/tool" c4infos =
      Except.error (ConflictErr.conflictPair a b "/usr/bin/tool") :=
  ((c4_amended "/usr/bin/tool" c4infos (by decide) (by decide)).1).mpr
    ⟨"pkg-a_slice1", c4infoA, "pkg-a_slice2", c4infoB,
      by decide, by decide, by decide, by decide, by decide⟩

end Chisel
